import Mathlib

/-!
# mbsolve: the OpenMP two-level predictor-corrector solver

A shallow embedding of `solver-openmp/src/solver_openmp_2lvl_pc.cpp`:
the constructor (simulation settings, simulation constants, material
indices, field initialisation, record dispatch, scratch layout) and `run()`
(the quantum+E sweep, the H sweep, the recording sweep, the bulk copy).

Conventions of the embedding.

* `real` is modelled in exact arithmetic by `ℚ`.  The functions of `<cmath>`
  that leave the rationals (`sqrt`, `cosh`, `sin`, the constant `M_PI`) are
  parameters, collected in `cmath`.
* The physical constants `EPS0`, `MU0`, `HBAR`, `E0` come from a header that
  is not among the sources; they are parameters, collected in `phys_consts`.
* A heap array (`new real[n]`) is a total map `Nat → ℚ` from index to cell;
  `new` does not fill the cells, so the contents at allocation are an
  argument of the constructor.
* `std::map<std::string, unsigned int>` is a total map `String → Nat` whose
  value at a key never assigned is `0`, which is what `operator[]` answers.
* `unsigned int` is a `Nat` reduced modulo `2^32` where the source can wrap.
* A C++ exception, and a step whose behaviour the language leaves
  undefined, are the two constructors of `failure`.
-/

namespace mbsolve

/-! ## Collaborators: constants, materials, device, scenario -/

/-- The physical constants used by the solver (declared outside the sources). -/
structure phys_consts where
  EPS0 : ℚ
  MU0 : ℚ
  HBAR : ℚ
  E0 : ℚ

/-- The functions and constants of `<cmath>` that are not rational. -/
structure cmath where
  sqrt : ℚ → ℚ
  cosh : ℚ → ℚ
  sin : ℚ → ℚ
  M_PI : ℚ

/-- The two-level quantum mechanical description of a material. -/
structure qm_desc_2lvl where
  carrier_density : ℚ
  transition_freq : ℚ
  dipole_moment : ℚ
  scattering_rate : ℚ
  dephasing_rate : ℚ

/-- A material of the library.  `qm` is the outcome of
`std::dynamic_pointer_cast<qm_desc_2lvl>(mat->get_qm())`: `none` when the
material has no two-level description. -/
structure material where
  id : String
  rel_permittivity : ℚ
  rel_permeability : ℚ
  losses : ℚ
  overlap_factor : ℚ
  qm : Option qm_desc_2lvl

/-- A region of the device: `[start, stop]` filled with one material
(`stop` is `get_end()`). -/
structure region where
  name : String
  start : ℚ
  stop : ℚ
  mat : material

/-- What the constructor reads from the device. -/
structure device where
  regions : List region
  used_materials : List String
  length : ℚ
  minimum_permittivity : ℚ

/-- The constant set of one material (`struct sim_constants_2lvl`). -/
structure sim_constants_2lvl where
  M_CE : ℚ
  M_CH : ℚ
  M_CP : ℚ
  sigma : ℚ
  w12 : ℚ
  d12 : ℚ
  tau1 : ℚ
  gamma12 : ℚ
  d_x_inv : ℚ
  d_t : ℚ
  dm11_init : ℚ
  dm22_init : ℚ
deriving DecidableEq

/-- The value-initialised constant set: what `std::vector<T>(n)` puts in each
of its `n` elements for a struct of scalars. -/
def sim_constants_zero : sim_constants_2lvl :=
  ⟨0, 0, 0, 0, 0, 0, 0, 0, 0, 0, 0, 0⟩

/-- The ways a step of the solver can fail. -/
inductive failure where
  | invalid_argument (what : String)
  | undefined (what : String)
deriving DecidableEq

/-! ## Constructor: simulation constants (lines 95-155) -/

/-- The body of the loop over the used materials, up to `push_back`: the
constant set `sc` computed for material `mat` from the time step `d_t`
(`scen->get_timestep_size()`) and the grid spacing `d_x`
(`scen->get_gridpoint_size()`). -/
def make_sim_constants (pc : phys_consts) (cm : cmath) (d_t d_x : ℚ)
    (mat : material) : sim_constants_2lvl :=
  let M_CE := d_t / (pc.EPS0 * mat.rel_permittivity)
  let M_CH := d_t / (pc.MU0 * mat.rel_permeability * d_x)
  let sigma := cm.sqrt (pc.EPS0 * mat.rel_permittivity /
      (pc.MU0 * mat.rel_permeability)) * mat.losses * 2
  match mat.qm with
  | some qm =>
      { M_CE := M_CE, M_CH := M_CH, sigma := sigma,
        M_CP := -2 * pc.HBAR * mat.overlap_factor * qm.carrier_density,
        w12 := qm.transition_freq,
        d12 := qm.dipole_moment * pc.E0 / pc.HBAR,
        tau1 := qm.scattering_rate,
        gamma12 := qm.dephasing_rate,
        dm11_init := 0, dm22_init := 1,
        d_x_inv := 1 / d_x, d_t := d_t }
  | none =>
      { M_CE := M_CE, M_CH := M_CH, sigma := sigma,
        M_CP := 0, w12 := 0, d12 := 0, tau1 := 0, gamma12 := 0,
        dm11_init := 0, dm22_init := 0,
        d_x_inv := 1 / d_x, d_t := d_t }

/-- The state threaded through the loop over the used materials:
`m_sim_consts`, `id_to_idx` and the counter `j`. -/
structure consts_state where
  m_sim_consts : List sim_constants_2lvl
  id_to_idx : String → Nat
  j : Nat

/-- The state before the loop.  The member initialiser
`m_sim_consts(dev->get_used_materials().size())` has already built the vector
with one element per used material, each equal to `sc0`. -/
def consts_init (sc0 : sim_constants_2lvl) (dev : device) : consts_state :=
  { m_sim_consts := List.replicate dev.used_materials.length sc0,
    id_to_idx := fun _ => 0,
    j := 0 }

/-- One iteration of the loop over the used materials: compute `sc`,
`m_sim_consts.push_back(sc)`, `id_to_idx[mat->get_id()] = j`, `j++`. -/
def consts_step (pc : phys_consts) (cm : cmath) (lib : String → material)
    (d_t d_x : ℚ) (st : consts_state) (mat_id : String) : consts_state :=
  let mat := lib mat_id
  let sc := make_sim_constants pc cm d_t d_x mat
  { m_sim_consts := st.m_sim_consts ++ [sc],
    id_to_idx := Function.update st.id_to_idx mat.id st.j,
    j := (st.j + 1) % 2 ^ 32 }

/-- The loop over the used materials (`lib` is `material::get_from_library`). -/
def setup_sim_consts (pc : phys_consts) (cm : cmath) (lib : String → material)
    (sc0 : sim_constants_2lvl) (d_t d_x : ℚ) (dev : device) : consts_state :=
  dev.used_materials.foldl (consts_step pc cm lib d_t d_x) (consts_init sc0 dev)

/-- The element `m_sim_consts[k]`; an index beyond the vector answers the
value-initialised set. -/
def sim_consts_at (v : List sim_constants_2lvl) (k : Nat) : sim_constants_2lvl :=
  v.getD k sim_constants_zero

/-! ## Scenario, records and copy list -/

/-- A requested record, with what `copy_list_entry` derives from it and from
the scenario.  The class `copy_list_entry` is declared in
`internal/copy_list_entry.hpp`, which is not among the sources; the answers of
its accessors are therefore fields here: `size` is `get_size()`, `position`
is `get_position()`, `cols` is `get_cols()`, `hasto_record` and `is_complex`
are the methods of these names, and `cell n i` is the distance of the cell
`get_scratch_real(n, i)` from the scratch pointer of the entry (the same
distance for `get_scratch_imag`). -/
structure record where
  name : String
  position : Nat
  cols : Nat
  size : Nat
  hasto_record : Nat → Bool
  is_complex : Bool
  cell : Nat → Nat → Nat

/-- The storage of a result: `get_result_real(0, 0)` and
`get_result_imag(0, 0)` point at the first cells of `re` and `im`. -/
structure result where
  re : Nat → ℚ
  im : Nat → ℚ

/-- The data arrays of the solver an entry can point at. -/
inductive field_id where
  | dm11 | dm12r | dm12i | dm22 | e | h
deriving DecidableEq

/-- An entry of the copy list.  `src_real` and `src_imag` are the addresses
given to `set_real` and `set_imag`; `scratch_real` and `scratch_imag` are the
offsets into `m_result_scratch` given to `set_scratch_real` and
`set_scratch_imag`.  A pointer that was never set is `none`. -/
structure copy_list_entry where
  m_record : record
  src_real : Option field_id
  src_imag : Option field_id
  scratch_real : Option Nat
  scratch_imag : Option Nat

/-- The scenario: what the constructor reads (`num_gridpoints`, `endtime`,
`records`) and what it sets (`gridpoint_size`, `num_timesteps`,
`timestep_size`). -/
structure scenario where
  num_gridpoints : Nat
  endtime : ℚ
  records : List record
  gridpoint_size : ℚ
  num_timesteps : Nat
  timestep_size : ℚ

/-! ## Constructor: simulation settings (lines 61-90) -/

/-- The divisor `n_x - 1` of the grid spacing, in `unsigned int` arithmetic. -/
def grid_divisor (n_x : Nat) : Nat := (n_x + 2 ^ 32 - 1) % 2 ^ 32

/-- The divisor `n_t - 1` of the re-adjusted time step, in `unsigned int`
arithmetic. -/
def step_divisor (n_t : Nat) : Nat := (n_t + 2 ^ 32 - 1) % 2 ^ 32

/-- A floating-point division.  A zero divisor gives an infinity or a NaN on
the machine, which exact arithmetic cannot follow: the model stops there. -/
def fdiv (a b : ℚ) : Except failure ℚ :=
  if b = 0 then .error (.undefined "division by zero") else .ok (a / b)

/-- The conversion of an integral `double` to `unsigned int`, undefined
outside the range of the target type. -/
def to_unsigned (v : Int) : Except failure Nat :=
  if 0 ≤ v ∧ v < 2 ^ 32 then .ok v.toNat
  else .error (.undefined "double to unsigned int conversion out of range")

/-- Sequencing of fallible steps: the rest of a block runs on the value of a
step that succeeded, and a failure ends the block. -/
def and_then {α β : Type} (r : Except failure α) (f : α → Except failure β) :
    Except failure β :=
  match r with
  | .error err => .error err
  | .ok a => f a

/-- The block "determine simulation settings": the scenario with
`gridpoint_size`, `num_timesteps` and `timestep_size` set, or
`invalid_argument("Invalid scenario.")`. -/
def setup_settings (pc : phys_consts) (cm : cmath) (dev : device)
    (scen : scenario) : Except failure scenario :=
  if 0 < scen.num_gridpoints then
    and_then (fdiv 1 (cm.sqrt (pc.MU0 * pc.EPS0 * dev.minimum_permittivity)))
      fun velocity =>
    let n_x := scen.num_gridpoints
    and_then (fdiv dev.length (grid_divisor n_x)) fun d_x =>
    and_then (fdiv ((1 / 2) * d_x) velocity) fun d_t0 =>
    and_then (fdiv scen.endtime d_t0) fun q =>
    and_then (to_unsigned (Int.ceil q + 1)) fun n_t =>
    and_then (fdiv scen.endtime (step_divisor n_t)) fun d_t =>
    .ok { scen with gridpoint_size := d_x, num_timesteps := n_t, timestep_size := d_t }
  else
    .error (.invalid_argument "Invalid scenario.")

/-! ## Constructor: material indices and field initialisation (lines 157-198) -/

/-- The data arrays of the solver: `m_dm11`, `m_dm12r`, `m_dm12i`, `m_dm22`,
`m_e` (one cell per grid point) and `m_h` (one cell more). -/
@[ext]
structure grid where
  dm11 : Nat → ℚ
  dm12r : Nat → ℚ
  dm12i : Nat → ℚ
  dm22 : Nat → ℚ
  e : Nat → ℚ
  h : Nat → ℚ

/-- The conversion of an `unsigned int` to `int` (two's complement). -/
def to_int (v : Nat) : Int :=
  if v % 2 ^ 32 < 2 ^ 31 then ((v % 2 ^ 32 : Nat) : Int)
  else ((v % 2 ^ 32 : Nat) : Int) - 2 ^ 32

/-- The test `(x >= reg->get_start()) && (x <= reg->get_end())`. -/
def in_region (x : ℚ) (reg : region) : Bool :=
  decide (reg.start ≤ x) && decide (x ≤ reg.stop)

/-- The inner loop over the regions: `idx` starts at `-1` and takes the
material index of the first region that contains `x`. -/
def find_region_idx (id_to_idx : String → Nat) (x : ℚ) : List region → Int
  | [] => -1
  | reg :: rest =>
      if in_region x reg then to_int (id_to_idx reg.mat.id)
      else find_region_idx id_to_idx x rest

/-- The state threaded through the loop over the grid indices. -/
structure index_state where
  m_mat_indices : Nat → Nat
  g : grid

/-- The body of the loop over the grid indices, at index `i`.  The coordinate
`x = i * d_x` is the exact product here; the machine rounds it to a `double`
before the comparisons with the region bounds. -/
def index_step (dev : device) (scen : scenario) (cs : consts_state)
    (st : index_state) (i : Nat) : Except failure index_state :=
  let x : ℚ := (i : ℚ) * scen.gridpoint_size
  let idx := find_region_idx cs.id_to_idx x dev.regions
  if idx < 0 then
    .error (.invalid_argument "region not found")
  else
    let sc := sim_consts_at cs.m_sim_consts idx.toNat
    let h1 := Function.update st.g.h i 0
    .ok
      { m_mat_indices := Function.update st.m_mat_indices i idx.toNat,
        g :=
          { dm11 := Function.update st.g.dm11 i sc.dm11_init,
            dm22 := Function.update st.g.dm22 i sc.dm22_init,
            dm12r := Function.update st.g.dm12r i 0,
            dm12i := Function.update st.g.dm12i i 0,
            e := Function.update st.g.e i 0,
            h := if i = scen.num_gridpoints - 1 then Function.update h1 (i + 1) 0
                 else h1 } }

/-- The loop over the listed grid indices, stopping at the first throw. -/
def index_loop (dev : device) (scen : scenario) (cs : consts_state) :
    List Nat → index_state → Except failure index_state
  | [], st => .ok st
  | i :: rest, st =>
      match index_step dev scen cs st i with
      | .error err => .error err
      | .ok st1 => index_loop dev scen cs rest st1

/-- The loop `#pragma omp for schedule(static)` /
`for (i = 0; i < scen->get_num_gridpoints(); i++)` of line 167.  The
worksharing loop is not inside a parallel region, so the one thread of the
constructor runs the iterations in order.  An exception thrown in the body
may not leave a worksharing region: OpenMP requires it to be caught within
the iteration that threw it, and the body has no handler.  The throw of
"region not found" therefore does not reach the caller of the constructor;
the OpenMP build ends the program (`std::terminate`). -/
def setup_indices (dev : device) (scen : scenario) (cs : consts_state)
    (st : index_state) : Except failure index_state :=
  match index_loop dev scen cs (List.range scen.num_gridpoints) st with
  | .ok st1 => .ok st1
  | .error _ => .error (.undefined "exception leaves the omp for region")

/-! ## Constructor: records, scratch size and scratch offsets (lines 200-253) -/

/-- The state threaded through the loop over the requested records. -/
structure records_state where
  m_results : List result
  scratch_size : Nat
  m_copy_list : List copy_list_entry

/-- The body of the loop over the requested records.  `new_result rec` is the
result object created by the constructor of the entry (`entry.get_result()`). -/
def record_step (new_result : record → result) (st : records_state)
    (rec : record) : Except failure records_state :=
  let entry : copy_list_entry := ⟨rec, none, none, none, none⟩
  let results := st.m_results ++ [new_result rec]
  let scratch_size := (st.scratch_size + rec.size) % 2 ^ 32
  if rec.name = "d11" then
    .ok ⟨results, scratch_size,
      st.m_copy_list ++ [{ entry with src_real := some .dm11 }]⟩
  else if rec.name = "d22" then
    .ok ⟨results, scratch_size,
      st.m_copy_list ++ [{ entry with src_real := some .dm22 }]⟩
  else if rec.name = "d12" then
    .ok ⟨results, (scratch_size + rec.size) % 2 ^ 32,
      st.m_copy_list ++
        [{ entry with src_real := some .dm12r, src_imag := some .dm12i }]⟩
  else if rec.name = "e" then
    .ok ⟨results, scratch_size,
      st.m_copy_list ++ [{ entry with src_real := some .e }]⟩
  else if rec.name = "h" then
    .ok ⟨results, scratch_size,
      st.m_copy_list ++ [{ entry with src_real := some .h }]⟩
  else
    .error (.invalid_argument "Requested result is not available!")

/-- The loop over the listed records, stopping at the first throw. -/
def record_loop (new_result : record → result) :
    List record → records_state → Except failure records_state
  | [], st => .ok st
  | rec :: rest, st =>
      match record_step new_result st rec with
      | .error err => .error err
      | .ok st1 => record_loop new_result rest st1

/-- The loop `for (auto rec : scen->get_records())`, from `scratch_size = 0`
and empty `m_results` and `m_copy_list`. -/
def setup_records (new_result : record → result) (recs : List record) :
    Except failure records_state :=
  record_loop new_result recs ⟨[], 0, []⟩

/-- The body of the loop that hands out the scratch addresses: the entry
with its scratch pointers set, and `scratch_offset` after it. -/
def offset_step (scratch_offset : Nat) (cle : copy_list_entry) :
    copy_list_entry × Nat :=
  let cle1 := { cle with scratch_real := some scratch_offset }
  let off1 := (scratch_offset + cle.m_record.size) % 2 ^ 32
  if cle.m_record.name = "d12" then
    ({ cle1 with scratch_imag := some off1 }, (off1 + cle.m_record.size) % 2 ^ 32)
  else
    (cle1, off1)

/-- The loop `for (auto& cle : m_copy_list)` from `scratch_offset`: the
updated copy list and the final `scratch_offset`. -/
def offset_loop : Nat → List copy_list_entry → List copy_list_entry × Nat
  | off, [] => ([], off)
  | off, cle :: rest =>
      let r := offset_step off cle
      let t := offset_loop r.2 rest
      (r.1 :: t.1, t.2)

/-- The second loop over the copy list, from `scratch_offset = 0`. -/
def setup_offsets (cl : List copy_list_entry) : List copy_list_entry × Nat :=
  offset_loop 0 cl

/-! ## The solver object and its constructor -/

/-- The members of the solver after construction.  `scratch_size` is the
length with which `m_result_scratch` was allocated. -/
structure solver where
  scen : scenario
  m_sim_consts : List sim_constants_2lvl
  m_mat_indices : Nat → Nat
  g : grid
  m_results : List result
  m_copy_list : List copy_list_entry
  scratch_size : Nat
  m_result_scratch : Nat → ℚ

/-- The environment of the constructor: constants, `<cmath>`, the material
library, the value-initialised constant set, the result object created for a
record, and the contents of the arrays at allocation. -/
structure environment where
  pc : phys_consts
  cm : cmath
  lib : String → material
  sc0 : sim_constants_2lvl
  new_result : record → result
  mem_grid : grid
  mem_indices : Nat → Nat
  mem_scratch : Nat → ℚ

/-- The constructor `solver_openmp_2lvl_pc::solver_openmp_2lvl_pc(dev, scen)`. -/
def construct (env : environment) (dev : device) (scen : scenario) :
    Except failure solver :=
  if dev.regions.length = 0 then
    .error (.invalid_argument "No regions in device!")
  else
    match dev.regions[2]? with
    | none => .error (.undefined "get_regions()[2] beyond the end of the vector")
    | some _ =>
      and_then (setup_settings env.pc env.cm dev scen) fun scen1 =>
      let cs := setup_sim_consts env.pc env.cm env.lib env.sc0
        scen1.timestep_size scen1.gridpoint_size dev
      and_then (setup_indices dev scen1 cs ⟨env.mem_indices, env.mem_grid⟩) fun ist =>
      and_then (setup_records env.new_result scen1.records) fun rst =>
      let lay := setup_offsets rst.m_copy_list
      .ok
        { scen := scen1,
          m_sim_consts := cs.m_sim_consts,
          m_mat_indices := ist.m_mat_indices,
          g := ist.g,
          m_results := rst.m_results,
          m_copy_list := lay.1,
          scratch_size := rst.scratch_size,
          m_result_scratch := env.mem_scratch }

/-! ## `run()`: the quantum+E sweep (lines 293-370) -/

/-- The source value `src` computed at the head of time step `n`
(`d_t` is `m_scenario->get_timestep_size()`). -/
def source_value (cm : cmath) (d_t : ℚ) (n : Nat) : ℚ :=
  let f_0 : ℚ := 200000000000000
  let t : ℚ := (n : ℚ) * d_t
  let T_p : ℚ := 20 / f_0
  let gamma : ℚ := 2 * t / T_p - 1
  let E_0 : ℚ := 4218600000
  E_0 * 1 / cm.cosh (10 * gamma) * cm.sin (2 * cm.M_PI * f_0 * t)

/-- The locals that survive one prediction-correction iteration. -/
structure pc_vars where
  rho11_e : ℚ
  rho12r_e : ℚ
  rho12i_e : ℚ
  rho22_e : ℚ
  field_e : ℚ

/-- One iteration of the loop `for (pc_step = 0; pc_step < 4; pc_step++)` at
grid index `i`, with constant set `sc` and source value `src`. -/
def pc_iteration (sc : sim_constants_2lvl) (g : grid) (src : ℚ) (i : Nat)
    (v : pc_vars) : pc_vars :=
  let rho11 := (1 / 2) * (g.dm11 i + v.rho11_e)
  let rho22 := (1 / 2) * (g.dm22 i + v.rho22_e)
  let rho12r := (1 / 2) * (g.dm12r i + v.rho12r_e)
  let rho12i := (1 / 2) * (g.dm12i i + v.rho12i_e)
  let OmRabi := (1 / 2) * sc.d12 * (g.e i + v.field_e)
  let rho11_e := g.dm11 i + sc.d_t * (-2 * OmRabi * rho12i - sc.tau1 * rho11)
  let rho12i_e := g.dm12i i + sc.d_t *
    (-sc.w12 * rho12r + OmRabi * (rho11 - rho22) - sc.gamma12 * rho12i)
  let rho12r_e := g.dm12r i + sc.d_t * (sc.w12 * rho12i - sc.gamma12 * rho12r)
  let rho22_e := g.dm22 i + sc.d_t * (2 * OmRabi * rho12i + sc.tau1 * rho11)
  let j : ℚ := 0
  let p_t := sc.M_CP * sc.d12 * (sc.w12 * rho12i - sc.gamma12 * rho12r)
  let field_e := g.e i + sc.M_CE * (-j - p_t + (g.h (i + 1) - g.h i) * sc.d_x_inv)
  { rho11_e := rho11_e, rho12r_e := rho12r_e, rho12i_e := rho12i_e,
    rho22_e := rho22_e,
    field_e := if i = 0 then src else field_e }

/-- The locals at the end of the four iterations at grid index `i`. -/
def pc_result (sc : sim_constants_2lvl) (g : grid) (src : ℚ) (i : Nat) : pc_vars :=
  let v0 : pc_vars := ⟨g.dm11 i, g.dm12r i, g.dm12i i, g.dm22 i, g.e i⟩
  pc_iteration sc g src i (pc_iteration sc g src i
    (pc_iteration sc g src i (pc_iteration sc g src i v0)))

/-- The body of the quantum+E sweep at grid index `i`: the four iterations
and the final update step. -/
def dm_e_update (consts : List sim_constants_2lvl) (mat_indices : Nat → Nat)
    (src : ℚ) (g : grid) (i : Nat) : grid :=
  let sc := sim_consts_at consts (mat_indices i)
  let v := pc_result sc g src i
  { g with
    dm11 := Function.update g.dm11 i v.rho11_e,
    dm12i := Function.update g.dm12i i v.rho12i_e,
    dm12r := Function.update g.dm12r i v.rho12r_e,
    dm22 := Function.update g.dm22 i v.rho22_e,
    e := Function.update g.e i v.field_e }

/-- The quantum+E sweep over the listed indices, in list order. -/
def dm_e_sweep (consts : List sim_constants_2lvl) (mat_indices : Nat → Nat)
    (src : ℚ) (order : List Nat) (g : grid) : grid :=
  order.foldl (dm_e_update consts mat_indices src) g

/-- The quantum+E phase: the sweep `for (i = 0; i < num_gridpoints; i++)`. -/
def dm_e_phase (consts : List sim_constants_2lvl) (mat_indices : Nat → Nat)
    (N : Nat) (src : ℚ) (g : grid) : grid :=
  dm_e_sweep consts mat_indices src (List.range N) g

/-! ## `run()`: the H sweep (lines 372-379) -/

/-- The body of the H sweep at grid index `i`. -/
def h_update (consts : List sim_constants_2lvl) (mat_indices : Nat → Nat)
    (g : grid) (i : Nat) : grid :=
  let sc := sim_consts_at consts (mat_indices (i - 1))
  { g with h := Function.update g.h i (g.h i + sc.M_CH * (g.e i - g.e (i - 1))) }

/-- The H sweep over the listed indices, in list order. -/
def h_sweep (consts : List sim_constants_2lvl) (mat_indices : Nat → Nat)
    (order : List Nat) (g : grid) : grid :=
  order.foldl (h_update consts mat_indices) g

/-- The H phase: the sweep `for (i = 1; i < num_gridpoints; i++)`. -/
def h_phase (consts : List sim_constants_2lvl) (mat_indices : Nat → Nat)
    (N : Nat) (g : grid) : grid :=
  h_sweep consts mat_indices (List.range' 1 (N - 1)) g

/-- The two field phases of time step `n`, in the order of `run()`. -/
def grid_step (cm : cmath) (sv : solver) (n : Nat) (g : grid) : grid :=
  h_phase sv.m_sim_consts sv.m_mat_indices sv.scen.num_gridpoints
    (dm_e_phase sv.m_sim_consts sv.m_mat_indices sv.scen.num_gridpoints
      (source_value cm sv.scen.timestep_size n) g)

/-- The data arrays after the first `k` time steps of `run()`. -/
def grid_steps (cm : cmath) (sv : solver) : Nat → grid → grid
  | 0, g => g
  | k + 1, g => grid_step cm sv k (grid_steps cm sv k g)

/-! ## `run()`: recording (lines 381-397) -/

/-- The array behind a data pointer. -/
def field_of (g : grid) : field_id → Nat → ℚ
  | .dm11 => g.dm11
  | .dm12r => g.dm12r
  | .dm12i => g.dm12i
  | .dm22 => g.dm22
  | .e => g.e
  | .h => g.h

/-- The body of the recording loop of entry `cle` at time step `n` and grid
index `i`.  Writing or reading through a pointer that was never set is
undefined. -/
def record_cell (cle : copy_list_entry) (n : Nat) (g : grid)
    (scratch : Nat → ℚ) (i : Nat) : Except failure (Nat → ℚ) :=
  if cle.m_record.position < i ∧ i < cle.m_record.position + cle.m_record.cols then
    match cle.scratch_real, cle.src_real with
    | some p, some f =>
        let s1 := Function.update scratch (p + cle.m_record.cell n i) (field_of g f i)
        if cle.m_record.is_complex then
          match cle.scratch_imag, cle.src_imag with
          | some q, some fi =>
              .ok (Function.update s1 (q + cle.m_record.cell n i) (field_of g fi i))
          | _, _ => .error (.undefined "imaginary pointer never set")
        else .ok s1
    | _, _ => .error (.undefined "real pointer never set")
  else .ok scratch

/-- The recording loop of one entry over the listed grid indices. -/
def record_cells (cle : copy_list_entry) (n : Nat) (g : grid) :
    List Nat → (Nat → ℚ) → Except failure (Nat → ℚ)
  | [], scratch => .ok scratch
  | i :: rest, scratch =>
      match record_cell cle n g scratch i with
      | .error err => .error err
      | .ok s1 => record_cells cle n g rest s1

/-- The recording of one entry at time step `n`:
`if (cle.hasto_record(n))` the loop over all grid indices. -/
def record_entry (N n : Nat) (g : grid) (scratch : Nat → ℚ)
    (cle : copy_list_entry) : Except failure (Nat → ℚ) :=
  if cle.m_record.hasto_record n then record_cells cle n g (List.range N) scratch
  else .ok scratch

/-- The recording phase of time step `n`: the loop over the copy list. -/
def record_phase (N n : Nat) (g : grid) :
    List copy_list_entry → (Nat → ℚ) → Except failure (Nat → ℚ)
  | [], scratch => .ok scratch
  | cle :: rest, scratch =>
      match record_entry N n g scratch cle with
      | .error err => .error err
      | .ok s1 => record_phase N n g rest s1

/-- What `run()` changes: the data arrays and the scratch buffer. -/
structure run_state where
  g : grid
  m_result_scratch : Nat → ℚ

/-- One iteration of the main loop of `run()`, for time step `n`. -/
def time_step (cm : cmath) (sv : solver) (n : Nat) (st : run_state) :
    Except failure run_state :=
  let g2 := grid_step cm sv n st.g
  match record_phase sv.scen.num_gridpoints n g2 sv.m_copy_list st.m_result_scratch with
  | .error err => .error err
  | .ok s1 => .ok ⟨g2, s1⟩

/-- The first `k` iterations of the main loop of `run()`. -/
def time_loop (cm : cmath) (sv : solver) : Nat → run_state → Except failure run_state
  | 0, st => .ok st
  | k + 1, st =>
      match time_loop cm sv k st with
      | .error err => .error err
      | .ok st1 => time_step cm sv k st1

/-! ## Concrete inputs used to evaluate the model -/

/-- Constants all equal to one. -/
def pc_unit : phys_consts := ⟨1, 1, 1, 1⟩

/-- Stand-ins for the functions of `<cmath>`: `sqrt` as the identity,
`cosh` constantly one, `sin` constantly one, `M_PI` as three. -/
def cm_unit : cmath := ⟨fun x => x, fun _ => 1, fun _ => 1, 3⟩

/-- A dielectric material named `id` with unit parameters and no loss. -/
def dielectric (id : String) : material := ⟨id, 1, 1, 0, 0, none⟩

/-- A library in which every name is a dielectric of that name. -/
def lib_unit : String → material := dielectric

/-- A device of length two using the single material `"A"`, given as three
regions that cover `[0, 2]`. -/
def dev_one : device :=
  { regions := [⟨"r0", 0, 1, dielectric "A"⟩, ⟨"r1", 1, 2, dielectric "A"⟩,
      ⟨"r2", 2, 2, dielectric "A"⟩],
    used_materials := ["A"],
    length := 2,
    minimum_permittivity := 1 }

/-- An entry for the field `e` over the window of two columns that starts at
grid index `0`, recorded at every time step, with cell `(n, i)` at distance
`2 * n + i` from its scratch pointer, which is the start of the buffer. -/
def entry_e_window : copy_list_entry :=
  { m_record :=
      { name := "e", position := 0, cols := 2, size := 4,
        hasto_record := fun _ => true, is_complex := false,
        cell := fun n i => 2 * n + i },
    src_real := some .e, src_imag := none,
    scratch_real := some 0, scratch_imag := none }

/-- Data arrays holding `5` in every cell of `e` and `0` elsewhere. -/
def grid_e_five : grid :=
  ⟨fun _ => 0, fun _ => 0, fun _ => 0, fun _ => 0, fun _ => 5, fun _ => 0⟩

/-! ## Vocabulary of the scratch layout -/

/-- The names the record dispatch recognises. -/
def recognised (name : String) : Bool :=
  name = "d11" || name = "d22" || name = "d12" || name = "e" || name = "h"

/-- The scratch cells one record needs: its size, twice for `d12`. -/
def record_total (rec : record) : Nat :=
  if rec.name = "d12" then rec.size + rec.size else rec.size

/-- The sum of the scratch cells of the listed records. -/
def scratch_total (recs : List record) : Nat :=
  (recs.map record_total).sum

/-- The copy list is laid out contiguously from `off` in list order: each
entry's real range starts where the previous entry ended, and the imaginary
range of a `d12` entry follows its real range. -/
def layout_from : Nat → List copy_list_entry → Prop
  | _, [] => True
  | off, cle :: rest =>
      cle.scratch_real = some off ∧
      (cle.m_record.name = "d12" → cle.scratch_imag = some (off + cle.m_record.size)) ∧
      layout_from (off + record_total cle.m_record) rest

/-- The scratch ranges `(offset, size)` of an entry: its real range and, for
a `d12` entry, its imaginary range. -/
def entry_ranges (cle : copy_list_entry) : List (Nat × Nat) :=
  (match cle.scratch_real with
    | some p => [(p, cle.m_record.size)]
    | none => []) ++
  (if cle.m_record.name = "d12" then
    match cle.scratch_imag with
    | some q => [(q, cle.m_record.size)]
    | none => []
   else [])

/-- The scratch ranges of a copy list, in list order. -/
def scratch_ranges : List copy_list_entry → List (Nat × Nat)
  | [] => []
  | cle :: rest => entry_ranges cle ++ scratch_ranges rest

/-- Two ranges `[a.1, a.1 + a.2)` and `[b.1, b.1 + b.2)` share no cell. -/
def ranges_disjoint (a b : Nat × Nat) : Prop :=
  ∀ x, ¬ (a.1 ≤ x ∧ x < a.1 + a.2 ∧ b.1 ≤ x ∧ x < b.1 + b.2)

/-- The number of scratch ranges the listed records ask for. -/
def range_count (recs : List record) : Nat :=
  (recs.map (fun rec => if rec.name = "d12" then 2 else 1)).sum

/-- Three records: `e` of size 4, `d12` of size 3, `h` of size 5. -/
def recs_three : List record :=
  [⟨"e", 0, 2, 4, fun _ => true, false, fun n i => 2 * n + i⟩,
   ⟨"d12", 0, 3, 3, fun _ => true, true, fun n i => 3 * n + i⟩,
   ⟨"h", 0, 5, 5, fun _ => true, false, fun n i => 5 * n + i⟩]

/-- A result object with zeros in its storage. -/
def result_zero : record → result := fun _ => ⟨fun _ => 0, fun _ => 0⟩

/-! ## Pointwise descriptions of the sweeps -/

/-- The quantum+E sweep described cell by cell: a cell at a listed index
holds the outcome of the four iterations computed from the arrays before
the sweep; every other cell, and all of `h`, is as before. -/
def dm_e_pointwise (consts : List sim_constants_2lvl) (mat_indices : Nat → Nat)
    (src : ℚ) (order : List Nat) (g : grid) : grid :=
  { dm11 := fun i => if i ∈ order then
      (pc_result (sim_consts_at consts (mat_indices i)) g src i).rho11_e else g.dm11 i,
    dm12r := fun i => if i ∈ order then
      (pc_result (sim_consts_at consts (mat_indices i)) g src i).rho12r_e else g.dm12r i,
    dm12i := fun i => if i ∈ order then
      (pc_result (sim_consts_at consts (mat_indices i)) g src i).rho12i_e else g.dm12i i,
    dm22 := fun i => if i ∈ order then
      (pc_result (sim_consts_at consts (mat_indices i)) g src i).rho22_e else g.dm22 i,
    e := fun i => if i ∈ order then
      (pc_result (sim_consts_at consts (mat_indices i)) g src i).field_e else g.e i,
    h := g.h }

/-- The H sweep described cell by cell. -/
def h_pointwise (consts : List sim_constants_2lvl) (mat_indices : Nat → Nat)
    (order : List Nat) (g : grid) : grid :=
  { g with
    h := fun i => if i ∈ order then
      g.h i + (sim_consts_at consts (mat_indices (i - 1))).M_CH * (g.e i - g.e (i - 1))
      else g.h i }

/-- Two grids hold the same values in the cells the quantum+E update at
index `i` reads: the five cells at `i`, `h[i]` and `h[i + 1]`. -/
def agree_at (i : Nat) (g1 g2 : grid) : Prop :=
  g1.dm11 i = g2.dm11 i ∧ g1.dm12r i = g2.dm12r i ∧ g1.dm12i i = g2.dm12i i ∧
  g1.dm22 i = g2.dm22 i ∧ g1.e i = g2.e i ∧ g1.h i = g2.h i ∧ g1.h (i + 1) = g2.h (i + 1)

/-! ## Dielectric materials and the reference FDTD update -/

/-- The constants of the branch for a material without quantum description. -/
def is_dielectric (sc : sim_constants_2lvl) : Prop :=
  sc.M_CP = 0 ∧ sc.d12 = 0 ∧ sc.w12 = 0 ∧ sc.tau1 = 0 ∧ sc.gamma12 = 0 ∧
  sc.dm11_init = 0 ∧ sc.dm22_init = 0

/-- The fields of an FDTD-only solver: `E` and the staggered `H`. -/
structure fdtd_fields where
  e : Nat → ℚ
  h : Nat → ℚ

/-- Reference FDTD-only update, written from the specification: one leapfrog
step on a grid of `N` points with a hard source at index 0.  First
`E[i] += M_CE(i) * (H[i+1] - H[i]) * d_x_inv(i)` at every grid index, the
source value replacing `E[0]`; then
`H[i] += M_CH(i-1) * (E[i] - E[i-1])` at every interior index `1 <= i < N`,
from the new `E`.  `M_CE i`, `M_CH i` and `d_x_inv i` are the constants of
the material at grid index `i`. -/
def fdtd_reference_step (M_CE M_CH d_x_inv : Nat → ℚ) (N : Nat) (src : ℚ)
    (f : fdtd_fields) : fdtd_fields :=
  let e1 : Nat → ℚ := fun i =>
    if i < N then
      (if i = 0 then src else f.e i + M_CE i * (f.h (i + 1) - f.h i) * d_x_inv i)
    else f.e i
  { e := e1,
    h := fun i =>
      if 1 ≤ i ∧ i < N then f.h i + M_CH (i - 1) * (e1 i - e1 (i - 1)) else f.h i }

/-- The reference FDTD-only fields after `k` steps, step `n` driven by the
source value `src n`. -/
def fdtd_reference_steps (M_CE M_CH d_x_inv : Nat → ℚ) (N : Nat) (src : Nat → ℚ) :
    Nat → fdtd_fields → fdtd_fields
  | 0, f => f
  | k + 1, f =>
      fdtd_reference_step M_CE M_CH d_x_inv N (src k)
        (fdtd_reference_steps M_CE M_CH d_x_inv N src k f)

/-- A solver on a grid of two points of one dielectric material, with the
constants computed from unit parameters, time step and grid spacing one, and
an empty copy list. -/
def solver_two : solver :=
  { scen :=
      { num_gridpoints := 2, endtime := 1, records := [], gridpoint_size := 1,
        num_timesteps := 2, timestep_size := 1 },
    m_sim_consts := [make_sim_constants pc_unit cm_unit 1 1 (dielectric "A")],
    m_mat_indices := fun _ => 0,
    g := ⟨fun _ => 0, fun _ => 0, fun _ => 0, fun _ => 0, fun _ => 0, fun _ => 0⟩,
    m_results := [],
    m_copy_list := [],
    scratch_size := 0,
    m_result_scratch := fun _ => 0 }

/-! ## Vocabulary of the material resolution -/

/-- The first region, in region-list order, with `start <= x <= end`. -/
def first_region (regions : List region) (x : ℚ) : Option region :=
  regions.find? (in_region x)

/-- A scenario of three grid points and end time one, without records. -/
def scen_three : scenario :=
  { num_gridpoints := 3, endtime := 1, records := [], gridpoint_size := 0,
    num_timesteps := 0, timestep_size := 0 }

/-- An environment with unit constants, the library `lib_unit`, and zeros in
every array at allocation. -/
def env_unit : environment :=
  { pc := pc_unit, cm := cm_unit, lib := lib_unit, sc0 := sim_constants_zero,
    new_result := result_zero,
    mem_grid := ⟨fun _ => 0, fun _ => 0, fun _ => 0, fun _ => 0, fun _ => 0, fun _ => 0⟩,
    mem_indices := fun _ => 0,
    mem_scratch := fun _ => 0 }

/-- The scenario `scen_three` with the settings the constructor computes for
the device `dev_one`: grid spacing one, three time steps of size one half. -/
def scen_three_set : scenario :=
  { scen_three with gridpoint_size := 1, num_timesteps := 3, timestep_size := 1 / 2 }

/-! ## `run()`: the bulk copy (lines 401-409) and the whole of `run()` -/

/-- The loop of `std::copy(first, first + size, d_first)`: cell `k` of the
destination takes cell `first + k` of the source, for `k` below `size`, in
increasing order. -/
def std_copy (src : Nat → ℚ) (first size : Nat) (dst : Nat → ℚ) : Nat → ℚ :=
  (List.range size).foldl (fun d k => Function.update d k (src (first + k))) dst

/-- The body of the bulk-copy loop for one entry and its result object.  The
source ranges start at `get_scratch_real(0, 0)` and `get_scratch_imag(0, 0)`,
the destinations at `get_result_real(0, 0)` and `get_result_imag(0, 0)`. -/
def bulk_copy_entry (scratch : Nat → ℚ) (cle : copy_list_entry) (res : result) :
    Except failure result :=
  match cle.scratch_real with
  | none => .error (.undefined "real pointer never set")
  | some p =>
      let re := std_copy scratch (p + cle.m_record.cell 0 0) cle.m_record.size res.re
      if cle.m_record.is_complex then
        match cle.scratch_imag with
        | none => .error (.undefined "imaginary pointer never set")
        | some q =>
            .ok ⟨re, std_copy scratch (q + cle.m_record.cell 0 0) cle.m_record.size res.im⟩
      else .ok ⟨re, res.im⟩

/-- The bulk copy: the loop over the copy list, each entry with the result
object it holds. -/
def bulk_copy (scratch : Nat → ℚ) :
    List (copy_list_entry × result) → Except failure (List result)
  | [] => .ok []
  | (cle, res) :: rest =>
      match bulk_copy_entry scratch cle res with
      | .error err => .error err
      | .ok r =>
          match bulk_copy scratch rest with
          | .error err => .error err
          | .ok out => .ok (r :: out)

/-- What `run()` leaves behind: the data arrays, the scratch buffer and the
result objects, in copy-list order. -/
structure run_result where
  g : grid
  m_result_scratch : Nat → ℚ
  results : List result

/-- The method `run()`: the main loop over all time steps, then the bulk
copy.  The bulk copy reads the scratch buffer and writes the result objects
only. -/
def run (cm : cmath) (sv : solver) : Except failure run_result :=
  and_then (time_loop cm sv sv.scen.num_timesteps ⟨sv.g, sv.m_result_scratch⟩) fun st =>
  and_then (bulk_copy st.m_result_scratch (sv.m_copy_list.zip sv.m_results)) fun out =>
  .ok ⟨st.g, st.m_result_scratch, out⟩

/-! ## Effects of the constructor that outlive a throw -/

/-- What a call of the constructor has done to the world outside the object
when it returns or throws: the scenario object as it stands (the scenario is
shared, the setters write to it), and the lengths of the arrays obtained with
`new[]`, in order.  The member `m_sim_consts` is not listed: its initialiser
runs before the body and it is destroyed again when the body throws. -/
structure ctor_effects where
  scen : scenario
  allocated : List Nat

/-- The effects of the constructor.  The scenario is written by the settings
block; the seven data arrays are allocated after the simulation constants,
the scratch buffer after the records were dispatched.  Where the model stops
at an undefined step the effects are those of the steps before it. -/
def construct_effects (env : environment) (dev : device) (scen : scenario) :
    ctor_effects :=
  if dev.regions.length = 0 then
    ⟨scen, []⟩
  else
    match dev.regions[2]? with
    | none => ⟨scen, []⟩
    | some _ =>
      match setup_settings env.pc env.cm dev scen with
      | .error _ => ⟨scen, []⟩
      | .ok scen1 =>
        let cs := setup_sim_consts env.pc env.cm env.lib env.sc0
          scen1.timestep_size scen1.gridpoint_size dev
        let n := scen1.num_gridpoints
        let arrays := [n, n, n, n, n + 1, n, n]
        match setup_indices dev scen1 cs ⟨env.mem_indices, env.mem_grid⟩ with
        | .error _ => ⟨scen1, arrays⟩
        | .ok _ =>
          match setup_records env.new_result scen1.records with
          | .error _ => ⟨scen1, arrays⟩
          | .ok rst => ⟨scen1, arrays ++ [rst.scratch_size]⟩

/-! ## Vocabulary of the later theorems -/

/-- Every pointer that the recording and the bulk copy follow for this entry
was set. -/
def pointers_set (cle : copy_list_entry) : Prop :=
  cle.scratch_real.isSome = true ∧ cle.src_real.isSome = true ∧
  (cle.m_record.is_complex = true →
    cle.scratch_imag.isSome = true ∧ cle.src_imag.isSome = true)

/-- The result object `r` is what the bulk copy makes of the entry `p.1` and
its result object `p.2`: the first `get_size()` cells of the real storage are
those of the entry's real scratch range, the first `get_size()` cells of the
imaginary storage are those of its imaginary scratch range when the entry is
complex, and every other cell is as before. -/
def copied (scratch : Nat → ℚ) (p : copy_list_entry × result) (r : result) : Prop :=
  (∃ off, p.1.scratch_real = some off ∧
    ∀ k, r.re k = if k < p.1.m_record.size then scratch (off + k) else p.2.re k) ∧
  (p.1.m_record.is_complex = true →
    ∃ off, p.1.scratch_imag = some off ∧
      ∀ k, r.im k = if k < p.1.m_record.size then scratch (off + k) else p.2.im k) ∧
  (p.1.m_record.is_complex = false → r.im = p.2.im)

/-- Two constant sets that differ at most in `sigma`. -/
def same_but_sigma (a b : sim_constants_2lvl) : Prop :=
  a.M_CE = b.M_CE ∧ a.M_CH = b.M_CH ∧ a.M_CP = b.M_CP ∧ a.w12 = b.w12 ∧
  a.d12 = b.d12 ∧ a.tau1 = b.tau1 ∧ a.gamma12 = b.gamma12 ∧
  a.d_x_inv = b.d_x_inv ∧ a.d_t = b.d_t ∧
  a.dm11_init = b.dm11_init ∧ a.dm22_init = b.dm22_init

/-- The factor `1 - c + c^2/2 - c^3/4 + c^4/8`. -/
def relax_factor (c : ℚ) : ℚ := 1 - c + c ^ 2 / 2 - c ^ 3 / 4 + c ^ 4 / 8

/-- The Courant-limited time step `C * d_x/velocity` with `C = 0.5`. -/
def courant_step (d_x velocity : ℚ) : ℚ := (1 / 2) * d_x / velocity

/-- The value `ceil(T/d_t0) + 1` in exact arithmetic, before its conversion
to `unsigned int`. -/
def timestep_count (T d_t0 : ℚ) : Int := Int.ceil (T / d_t0) + 1

/-- The re-adjusted time step `T/(n_t - 1)` in exact arithmetic. -/
def readjusted_step (T : ℚ) (n_t : Int) : ℚ := T / ((n_t - 1 : Int) : ℚ)

/-- A solver on a grid of two points of one material without dipole moment
(`d12 = 0`) and with scattering rate one half, time step one. -/
def solver_relax : solver :=
  { solver_two with
    m_sim_consts :=
      [{ M_CE := 1, M_CH := 1, M_CP := 0, sigma := 0, w12 := 0, d12 := 0,
         tau1 := 1 / 2, gamma12 := 0, d_x_inv := 1, d_t := 1,
         dm11_init := 0, dm22_init := 1 }] }

/-- The solver `solver_two` with one entry in its copy list, `entry_e_window`,
and a result object of zeros for it. -/
def solver_rec : solver :=
  { solver_two with
    m_copy_list := [entry_e_window],
    m_results := [⟨fun _ => 0, fun _ => 0⟩],
    scratch_size := 4 }

/-- A device with a single region. -/
def dev_single : device :=
  { regions := [⟨"r0", 0, 2, dielectric "A"⟩],
    used_materials := ["A"],
    length := 2,
    minimum_permittivity := 1 }

/-- A device without regions. -/
def dev_empty : device :=
  { regions := [], used_materials := [], length := 0, minimum_permittivity := 1 }

/-- A scenario with a single grid point. -/
def scen_one_point : scenario :=
  { scen_three with num_gridpoints := 1 }

/-- The device `dev_one` with regions `[0,1]`, `[1,1]` and `[1,3/2]`: the
coordinate 2 of its last grid point lies in none of them. -/
def dev_gap : device :=
  { dev_one with
    regions := [⟨"r0", 0, 1, dielectric "A"⟩, ⟨"r1", 1, 1, dielectric "A"⟩,
      ⟨"r2", 1, 3 / 2, dielectric "A"⟩] }

/-! # Theorems -/

/-! ## Simulation constants -/

/-- The loop over the used materials appends one computed set per material
to the vector it starts from. -/
theorem consts_fold_sim_consts (pc : phys_consts) (cm : cmath) (lib : String → material)
    (d_t d_x : ℚ) (l : List String) (st : consts_state) :
    (l.foldl (consts_step pc cm lib d_t d_x) st).m_sim_consts =
      st.m_sim_consts ++ l.map (fun id => make_sim_constants pc cm d_t d_x (lib id)) := by
  induction l generalizing st with
  | nil => simp
  | cons a t ih => simp [List.foldl_cons, ih, consts_step]

/-- The counter `j` never exceeds the number of iterations made. -/
theorem consts_fold_j_le (pc : phys_consts) (cm : cmath) (lib : String → material)
    (d_t d_x : ℚ) (l : List String) (st : consts_state) :
    (l.foldl (consts_step pc cm lib d_t d_x) st).j ≤ st.j + l.length := by
  induction l generalizing st with
  | nil => simp
  | cons a t ih =>
    have h := ih (consts_step pc cm lib d_t d_x st a)
    have h2 : (consts_step pc cm lib d_t d_x st a).j ≤ st.j + 1 := by
      simp only [consts_step]
      exact Nat.mod_le _ _
    simp only [List.foldl_cons, List.length_cons]
    omega

/-- Every value stored in `id_to_idx` by the loop is a value the counter had
during the loop; the other keys keep their value. -/
theorem consts_fold_id_to_idx (pc : phys_consts) (cm : cmath) (lib : String → material)
    (d_t d_x : ℚ) (l : List String) (st : consts_state) (key : String) :
    (l.foldl (consts_step pc cm lib d_t d_x) st).id_to_idx key = st.id_to_idx key ∨
    (l.foldl (consts_step pc cm lib d_t d_x) st).id_to_idx key < st.j + l.length := by
  induction l generalizing st with
  | nil => simp
  | cons a t ih =>
    simp only [List.foldl_cons, List.length_cons]
    have hj : (consts_step pc cm lib d_t d_x st a).j ≤ st.j + 1 := by
      simp only [consts_step]
      exact Nat.mod_le _ _
    rcases ih (consts_step pc cm lib d_t d_x st a) with h | h
    · rw [h]
      by_cases hk : key = (lib a).id
      · right
        simp only [consts_step, hk, Function.update_same]
        omega
      · left
        simp [consts_step, Function.update_noteq hk]
    · right
      omega

/-- Every index handed out through `id_to_idx` lies in the first half of
`m_sim_consts`, the half built by the member initialiser. -/
theorem id_to_idx_lt_used (pc : phys_consts) (cm : cmath) (lib : String → material)
    (sc0 : sim_constants_2lvl) (d_t d_x : ℚ) (dev : device)
    (hne : dev.used_materials ≠ []) (key : String) :
    (setup_sim_consts pc cm lib sc0 d_t d_x dev).id_to_idx key <
      dev.used_materials.length := by
  have hpos : 0 < dev.used_materials.length := List.length_pos.mpr hne
  rcases consts_fold_id_to_idx pc cm lib d_t d_x dev.used_materials
      (consts_init sc0 dev) key with h | h
  · rw [setup_sim_consts, h]
    exact hpos
  · simpa [setup_sim_consts, consts_init] using h

/-- The vector after the loop: the elements of the member initialiser
followed by the computed sets. -/
theorem setup_sim_consts_vector (pc : phys_consts) (cm : cmath) (lib : String → material)
    (sc0 : sim_constants_2lvl) (d_t d_x : ℚ) (dev : device) :
    (setup_sim_consts pc cm lib sc0 d_t d_x dev).m_sim_consts =
      List.replicate dev.used_materials.length sc0 ++
        dev.used_materials.map (fun id => make_sim_constants pc cm d_t d_x (lib id)) := by
  simp [setup_sim_consts, consts_fold_sim_consts, consts_init]

/-- An index below the number of used materials reads an element of the
member initialiser. -/
theorem sim_consts_at_first_half (pc : phys_consts) (cm : cmath) (lib : String → material)
    (sc0 : sim_constants_2lvl)
    (d_t d_x : ℚ) (dev : device) (k : Nat) (hk : k < dev.used_materials.length) :
    sim_consts_at (setup_sim_consts pc cm lib sc0 d_t d_x dev).m_sim_consts k = sc0 := by
  rw [setup_sim_consts_vector, sim_consts_at, List.getD_append _ _ _ _ (by simpa using hk)]
  rw [List.getD_eq_getElem _ _ (by simpa using hk)]
  simp

/-- C1 (as the code behaves): for every device and every material it uses,
the constant set that the solver reads through the index assigned to the
material, `m_sim_consts[id_to_idx[id]]`, is the element `sc0` put there by
the member initialiser (value-initialised: all fields zero), and the set
computed from the material's parameters sits one vector-length further on,
where no index points. -/
theorem C1_index_reads_initialiser_element (pc : phys_consts) (cm : cmath)
    (lib : String → material) (sc0 : sim_constants_2lvl) (d_t d_x : ℚ) (dev : device)
    (id : String)
    (hid : id ∈ dev.used_materials) :
    let cs := setup_sim_consts pc cm lib sc0 d_t d_x dev
    sim_consts_at cs.m_sim_consts (cs.id_to_idx (lib id).id) = sc0 ∧
    cs.m_sim_consts.length = 2 * dev.used_materials.length ∧
    ∀ k, k < dev.used_materials.length →
      cs.m_sim_consts[dev.used_materials.length + k]? =
        (dev.used_materials[k]?).map
          (fun m => make_sim_constants pc cm d_t d_x (lib m)) := by
  intro cs
  have hne : dev.used_materials ≠ [] := List.ne_nil_of_mem hid
  refine ⟨?_, ?_, ?_⟩
  · exact sim_consts_at_first_half pc cm lib sc0 d_t d_x dev _
      (id_to_idx_lt_used pc cm lib sc0 d_t d_x dev hne _)
  · simp only [cs, setup_sim_consts_vector, List.length_append, List.length_replicate,
      List.length_map]
    omega
  · intro k _
    simp only [cs, setup_sim_consts_vector]
    rw [List.getElem?_append_right (by simp)]
    simp

/-- C1, evaluated: for the device `dev_one` (one used material `"A"`, unit
parameters, time step and grid spacing one) the set read through
`id_to_idx["A"]` has `M_CE = 0` and `d_x_inv = 0`, while the set computed
from the parameters of `"A"` has `M_CE = 1` and `d_x_inv = 1`. -/
theorem C1_index_reads_initialiser_element_witness :
    (let cs := setup_sim_consts pc_unit cm_unit lib_unit sim_constants_zero 1 1 dev_one
     sim_consts_at cs.m_sim_consts (cs.id_to_idx (lib_unit "A").id) = sim_constants_zero ∧
     cs.m_sim_consts.length = 2 * dev_one.used_materials.length ∧
     ∀ k, k < dev_one.used_materials.length →
       cs.m_sim_consts[dev_one.used_materials.length + k]? =
         (dev_one.used_materials[k]?).map
           (fun m => make_sim_constants pc_unit cm_unit 1 1 (lib_unit m))) ∧
    (make_sim_constants pc_unit cm_unit 1 1 (lib_unit "A")).M_CE = 1 ∧
    (make_sim_constants pc_unit cm_unit 1 1 (lib_unit "A")).d_x_inv = 1 ∧
    sim_constants_zero.M_CE = 0 ∧ sim_constants_zero.d_x_inv = 0 :=
  ⟨C1_index_reads_initialiser_element pc_unit cm_unit lib_unit sim_constants_zero 1 1
      dev_one "A"
      (by simp [dev_one]),
    by simp [make_sim_constants, pc_unit, lib_unit, dielectric],
    by simp [make_sim_constants, lib_unit, dielectric],
    rfl, rfl⟩

/-! ## Recording -/

/-- At the first index of an entry's window the body of the recording loop
writes nothing: the test is `i > position`. -/
theorem record_cell_at_position (cle : copy_list_entry) (n : Nat) (g : grid)
    (scratch : Nat → ℚ) :
    record_cell cle n g scratch cle.m_record.position = .ok scratch := by
  simp [record_cell]

/-- C2, evaluated at a failing input: a copy list with the single entry
`entry_e_window` (field `e`, window `0 <= i < 2`, recorded at every step) on
a grid of two points with `e[0] = e[1] = 5` and a scratch buffer of zeros.
After the recording phase of step `0` the scratch cell for `(0, 1)` holds
`e[1] = 5`, but the scratch cell for `(0, 0)`, the first index of the window,
still holds `0` and not `e[0] = 5`. -/
theorem C2_window_start_not_recorded :
    ∃ s, record_phase 2 0 grid_e_five [entry_e_window] (fun _ => 0) = .ok s ∧
      s (0 + entry_e_window.m_record.cell 0 1) = grid_e_five.e 1 ∧
      s (0 + entry_e_window.m_record.cell 0 0) = 0 ∧
      grid_e_five.e 0 = 5 ∧
      entry_e_window.m_record.hasto_record 0 = true ∧
      entry_e_window.m_record.position ≤ 0 ∧
      0 < entry_e_window.m_record.position + entry_e_window.m_record.cols := by
  refine ⟨Function.update (fun _ => 0) 1 5, ?_, ?_, ?_, ?_, ?_, ?_, ?_⟩
  · simp [record_phase, record_entry, record_cells, record_cell, entry_e_window,
      List.range_succ, field_of, grid_e_five]
  · simp [entry_e_window, grid_e_five]
  · simp [entry_e_window]
  · rfl
  · rfl
  · simp [entry_e_window]
  · simp [entry_e_window]

/-! ## Record dispatch -/

/-- A record with a recognised name passes the dispatch: its result is
added, its cells are counted, and one entry for it joins the copy list. -/
theorem record_step_recognised (new_result : record → result) (st : records_state)
    (rec : record) (h : recognised rec.name = true) :
    ∃ cle, record_step new_result st rec =
        .ok ⟨st.m_results ++ [new_result rec],
          (st.scratch_size + record_total rec) % 2 ^ 32,
          st.m_copy_list ++ [cle]⟩ ∧
      cle.m_record = rec ∧ cle.src_real.isSome = true := by
  simp only [recognised, Bool.or_eq_true, decide_eq_true_eq] at h
  by_cases h1 : rec.name = "d11"
  · exact ⟨⟨rec, some .dm11, none, none, none⟩,
      by simp [record_step, record_total, h1], rfl, rfl⟩
  by_cases h2 : rec.name = "d22"
  · exact ⟨⟨rec, some .dm22, none, none, none⟩,
      by simp [record_step, record_total, h2], rfl, rfl⟩
  by_cases h3 : rec.name = "d12"
  · refine ⟨⟨rec, some .dm12r, some .dm12i, none, none⟩, ?_, rfl, rfl⟩
    simp only [record_step, record_total, h3]
    simp [Nat.add_assoc]
  by_cases h4 : rec.name = "e"
  · exact ⟨⟨rec, some .e, none, none, none⟩,
      by simp [record_step, record_total, h4], rfl, rfl⟩
  by_cases h5 : rec.name = "h"
  · exact ⟨⟨rec, some .h, none, none, none⟩,
      by simp [record_step, record_total, h5], rfl, rfl⟩
  · exfalso
    rcases h with (((h | h) | h) | h) | h
    · exact h1 h
    · exact h2 h
    · exact h3 h
    · exact h4 h
    · exact h5 h

/-- A record with an unrecognised name makes the dispatch throw. -/
theorem record_step_unrecognised (new_result : record → result) (st : records_state)
    (rec : record) (h : recognised rec.name = false) :
    record_step new_result st rec =
      .error (.invalid_argument "Requested result is not available!") := by
  simp only [recognised, Bool.or_eq_false_iff, decide_eq_false_iff_not] at h
  obtain ⟨⟨⟨⟨h1, h2⟩, h3⟩, h4⟩, h5⟩ := h
  simp [record_step, h1, h2, h3, h4, h5]

/-- Over records with recognised names the loop runs to its end. -/
theorem record_loop_recognised (new_result : record → result) (recs : List record)
    (st : records_state) (h : ∀ rec ∈ recs, recognised rec.name = true) :
    ∃ cl r, record_loop new_result recs st = .ok r ∧
      r.m_results = st.m_results ++ recs.map new_result ∧
      r.scratch_size % 2 ^ 32 = (st.scratch_size + scratch_total recs) % 2 ^ 32 ∧
      (st.scratch_size < 2 ^ 32 → r.scratch_size < 2 ^ 32) ∧
      r.m_copy_list = st.m_copy_list ++ cl ∧
      cl.map (fun cle => cle.m_record) = recs ∧
      ∀ cle ∈ cl, cle.src_real.isSome = true := by
  induction recs generalizing st with
  | nil =>
    exact ⟨[], st, rfl, by simp, by simp [scratch_total], id, by simp, rfl, by simp⟩
  | cons rec rest ih =>
    obtain ⟨cle, hstep, hrec, hsrc⟩ :=
      record_step_recognised new_result st rec (h rec (List.mem_cons_self _ _))
    obtain ⟨cl, r, hloop, hres, hsize, hlt, hcl, hmap, hall⟩ :=
      ih ⟨st.m_results ++ [new_result rec],
          (st.scratch_size + record_total rec) % 2 ^ 32,
          st.m_copy_list ++ [cle]⟩
        (fun x hx => h x (List.mem_cons_of_mem _ hx))
    refine ⟨cle :: cl, r, ?_, ?_, ?_, ?_, ?_, ?_, ?_⟩
    · simp only [record_loop, hstep]
      exact hloop
    · simp [hres]
    · rw [hsize]
      simp only [scratch_total, List.map_cons, List.sum_cons]
      rw [Nat.mod_add_mod, Nat.add_assoc]
    · intro _
      exact hlt (Nat.mod_lt _ (by norm_num))
    · simp [hcl]
    · simp [hmap, hrec]
    · intro x hx
      rcases List.mem_cons.mp hx with rfl | hx
      · exact hsrc
      · exact hall x hx

/-- A record with an unrecognised name anywhere in the list makes the loop
throw. -/
theorem record_loop_unrecognised (new_result : record → result) (recs : List record)
    (st : records_state) (h : ∃ rec ∈ recs, recognised rec.name = false) :
    record_loop new_result recs st =
      .error (.invalid_argument "Requested result is not available!") := by
  induction recs generalizing st with
  | nil => simp at h
  | cons rec rest ih =>
    cases hr : recognised rec.name with
    | false => simp [record_loop, record_step_unrecognised new_result st rec hr]
    | true =>
      obtain ⟨cle, hstep, _, _⟩ := record_step_recognised new_result st rec hr
      obtain ⟨x, hx, hxr⟩ := h
      rcases List.mem_cons.mp hx with rfl | hx
      · rw [hr] at hxr
        cases hxr
      · simp only [record_loop, hstep]
        exact ih _ ⟨x, hx, hxr⟩

/-! ## Scratch layout -/

/-- The loop that hands out the scratch addresses, when the cells it hands
out fit in `unsigned int`: the final offset is the start plus the total, the
entries are laid out contiguously, and their records are untouched. -/
theorem offset_loop_layout (cl : List copy_list_entry) (off : Nat)
    (h : off + scratch_total (cl.map (fun cle => cle.m_record)) < 2 ^ 32) :
    (offset_loop off cl).2 = off + scratch_total (cl.map (fun cle => cle.m_record)) ∧
    layout_from off (offset_loop off cl).1 ∧
    (offset_loop off cl).1.map (fun cle => cle.m_record) =
      cl.map (fun cle => cle.m_record) := by
  induction cl generalizing off with
  | nil => simp [offset_loop, scratch_total, layout_from]
  | cons cle rest ih =>
    simp only [scratch_total, List.map_cons, List.sum_cons] at h
    have hstep : (offset_step off cle).2 = off + record_total cle.m_record ∧
        (offset_step off cle).1.m_record = cle.m_record ∧
        (offset_step off cle).1.scratch_real = some off ∧
        (cle.m_record.name = "d12" →
          (offset_step off cle).1.scratch_imag = some (off + cle.m_record.size)) := by
      by_cases hn : cle.m_record.name = "d12"
      · simp only [record_total, hn, if_true] at h
        have h1 : (off + cle.m_record.size) % 2 ^ 32 = off + cle.m_record.size :=
          Nat.mod_eq_of_lt (by omega)
        have h2 : (off + cle.m_record.size + cle.m_record.size) % 2 ^ 32 =
            off + cle.m_record.size + cle.m_record.size := Nat.mod_eq_of_lt (by omega)
        simp only [offset_step, record_total, hn, if_true, h1, h2]
        simp only [implies_true, and_true]
        omega
      · simp only [record_total, hn, if_false] at h
        have h1 : (off + cle.m_record.size) % 2 ^ 32 = off + cle.m_record.size :=
          Nat.mod_eq_of_lt (by omega)
        simp only [offset_step, record_total, hn, if_false, h1]
        simp
    obtain ⟨h2, hrec, hre, him⟩ := hstep
    have hrest := ih (off + record_total cle.m_record) (by
      simp only [scratch_total]
      omega)
    obtain ⟨hfin, hlay, hmap⟩ := hrest
    refine ⟨?_, ?_, ?_⟩
    · simp only [offset_loop, h2, hfin, scratch_total, List.map_cons, List.sum_cons]
      omega
    · simp only [offset_loop, layout_from, hrec, h2]
      exact ⟨hre, him, hlay⟩
    · simp only [offset_loop, List.map_cons, hrec, h2, hmap]

/-- In a contiguous layout from `off` every range starts at or after `off`,
ends at or before `off` plus the total, each range ends where or before any
later one starts, and no range is missing. -/
theorem layout_from_ranges (cl : List copy_list_entry) (off : Nat)
    (h : layout_from off cl) :
    (∀ r ∈ scratch_ranges cl, off ≤ r.1 ∧
      r.1 + r.2 ≤ off + scratch_total (cl.map (fun cle => cle.m_record))) ∧
    List.Pairwise (fun a b : Nat × Nat => a.1 + a.2 ≤ b.1) (scratch_ranges cl) ∧
    (scratch_ranges cl).length = range_count (cl.map (fun cle => cle.m_record)) := by
  induction cl generalizing off with
  | nil => simp [scratch_ranges, range_count]
  | cons cle rest ih =>
    obtain ⟨hre, him, hrest⟩ := h
    obtain ⟨hb, hp, hl⟩ := ih _ hrest
    by_cases hn : cle.m_record.name = "d12"
    · have hr : entry_ranges cle =
          [(off, cle.m_record.size), (off + cle.m_record.size, cle.m_record.size)] := by
        simp [entry_ranges, hre, him hn, hn]
      simp only [record_total, hn, if_true] at hb
      refine ⟨?_, ?_, ?_⟩
      · intro r hr'
        simp only [scratch_ranges, hr, List.mem_append, List.mem_cons,
          List.mem_singleton, List.not_mem_nil, or_false] at hr'
        simp only [scratch_total, List.map_cons, List.sum_cons, record_total, hn, if_true]
        rcases hr' with (rfl | rfl) | hr'
        · exact ⟨Nat.le_refl _, by show off + _ ≤ _; omega⟩
        · exact ⟨by show off ≤ off + _; omega, by show off + _ + _ ≤ _; omega⟩
        · have := hb r hr'
          simp only [scratch_total] at this
          omega
      · simp only [scratch_ranges, hr, List.cons_append, List.nil_append,
          List.pairwise_cons]
        refine ⟨?_, ?_, hp⟩
        · intro b hb'
          rcases List.mem_cons.mp hb' with rfl | hb'
          · simp
          · have := (hb b hb').1
            omega
        · intro b hb'
          have := (hb b hb').1
          omega
      · simp [scratch_ranges, hr, range_count, hn, hl]
        omega
    · have hr : entry_ranges cle = [(off, cle.m_record.size)] := by
        simp [entry_ranges, hre, hn]
      simp only [record_total, hn, if_false] at hb
      refine ⟨?_, ?_, ?_⟩
      · intro r hr'
        simp only [scratch_ranges, hr, List.mem_append, List.mem_singleton] at hr'
        simp only [scratch_total, List.map_cons, List.sum_cons, record_total, hn, if_false]
        rcases hr' with rfl | hr'
        · exact ⟨Nat.le_refl _, by show off + _ ≤ _; omega⟩
        · have := hb r hr'
          simp only [scratch_total] at this
          omega
      · simp only [scratch_ranges, hr, List.cons_append, List.nil_append,
          List.pairwise_cons]
        refine ⟨?_, hp⟩
        intro b hb'
        have := (hb b hb').1
        omega
      · simp [scratch_ranges, hr, range_count, hn, hl]
        omega

/-- C3: for every list of requested records with recognised names whose
total (sum of sizes, `d12` counted twice) fits in unsigned 32-bit
arithmetic, construction allocates `scratch_size` equal to that total, and
the scratch ranges it assigns are laid out contiguously from offset 0 in
list order (real range, then for `d12` the imaginary range of the same
size), none missing, pairwise disjoint, inside the allocation, with the
final offset equal to `scratch_size`. -/
theorem C3_scratch_ranges_partition (new_result : record → result) (recs : List record)
    (hnames : ∀ rec ∈ recs, recognised rec.name = true)
    (hfit : scratch_total recs < 2 ^ 32) :
    ∃ rst, setup_records new_result recs = .ok rst ∧
      rst.scratch_size = scratch_total recs ∧
      (setup_offsets rst.m_copy_list).2 = rst.scratch_size ∧
      (setup_offsets rst.m_copy_list).1.map (fun cle => cle.m_record) = recs ∧
      layout_from 0 (setup_offsets rst.m_copy_list).1 ∧
      (scratch_ranges (setup_offsets rst.m_copy_list).1).length = range_count recs ∧
      List.Pairwise ranges_disjoint (scratch_ranges (setup_offsets rst.m_copy_list).1) ∧
      ∀ r ∈ scratch_ranges (setup_offsets rst.m_copy_list).1,
        r.1 + r.2 ≤ rst.scratch_size := by
  obtain ⟨cl, rst, hloop, _, hsize, hlt, hcl, hmap, _⟩ :=
    record_loop_recognised new_result recs ⟨[], 0, []⟩ hnames
  have hcl' : rst.m_copy_list = cl := by simpa using hcl
  subst hcl'
  have hsz : rst.scratch_size = scratch_total recs := by
    have h1 := hlt (by norm_num)
    rw [Nat.mod_eq_of_lt h1] at hsize
    simp only [Nat.zero_add] at hsize
    rw [hsize, Nat.mod_eq_of_lt hfit]
  have hfit' : 0 + scratch_total (rst.m_copy_list.map (fun cle => cle.m_record)) < 2 ^ 32 := by
    rw [hmap]
    simpa using hfit
  obtain ⟨hfin, hlay, hrecs⟩ := offset_loop_layout rst.m_copy_list 0 hfit'
  obtain ⟨hb, hp, hlen⟩ := layout_from_ranges _ 0 hlay
  rw [hrecs, hmap] at hb hlen
  rw [hmap] at hfin hrecs
  simp only [setup_offsets]
  refine ⟨rst, hloop, hsz, ?_, hrecs, hlay, hlen, ?_, ?_⟩
  · rw [hfin, hsz]
    omega
  · refine List.Pairwise.imp ?_ hp
    intro a b hab x hx
    omega
  · intro r hr
    have := (hb r hr).2
    omega

/-- C3 at a concrete input: the records `e` (size 4), `d12` (size 3) and `h`
(size 5) have recognised names and a total of 15 cells. -/
theorem C3_scratch_ranges_partition_witness :
    (∀ rec ∈ recs_three, recognised rec.name = true) ∧
    scratch_total recs_three < 2 ^ 32 ∧
    ∃ rst, setup_records result_zero recs_three = .ok rst ∧
      rst.scratch_size = scratch_total recs_three ∧
      (setup_offsets rst.m_copy_list).2 = rst.scratch_size ∧
      (setup_offsets rst.m_copy_list).1.map (fun cle => cle.m_record) = recs_three ∧
      layout_from 0 (setup_offsets rst.m_copy_list).1 ∧
      (scratch_ranges (setup_offsets rst.m_copy_list).1).length = range_count recs_three ∧
      List.Pairwise ranges_disjoint (scratch_ranges (setup_offsets rst.m_copy_list).1) ∧
      ∀ r ∈ scratch_ranges (setup_offsets rst.m_copy_list).1,
        r.1 + r.2 ≤ rst.scratch_size :=
  ⟨by simp [recs_three, recognised],
   by simp [recs_three, scratch_total, record_total],
   C3_scratch_ranges_partition result_zero recs_three
     (by simp [recs_three, recognised])
     (by simp [recs_three, scratch_total, record_total])⟩

/-- C8: while the constructor processes the requested records it throws
`invalid_argument("Requested result is not available!")` if and only if some
record's name is outside `d11`, `d22`, `d12`, `e`, `h`; it throws nothing
else; the body of the loop throws for such a record before its `push_back`,
whatever the state; and when the loop ends the copy list holds exactly one
entry per requested record, in order, each with a recognised name and its
real source pointer set. -/
theorem C8_unrecognised_name_throws (new_result : record → result) (recs : List record) :
    (setup_records new_result recs =
        .error (.invalid_argument "Requested result is not available!") ↔
      ∃ rec ∈ recs, recognised rec.name = false) ∧
    (∀ err, setup_records new_result recs = .error err →
      err = .invalid_argument "Requested result is not available!") ∧
    (∀ st rec, recognised rec.name = false →
      record_step new_result st rec =
        .error (.invalid_argument "Requested result is not available!")) ∧
    (∀ rst, setup_records new_result recs = .ok rst →
      rst.m_copy_list.map (fun cle => cle.m_record) = recs ∧
      ∀ cle ∈ rst.m_copy_list,
        recognised cle.m_record.name = true ∧ cle.src_real.isSome = true) := by
  by_cases hall : ∀ rec ∈ recs, recognised rec.name = true
  · obtain ⟨cl, rst, hloop, _, _, _, hcl, hmap, hsrc⟩ :=
      record_loop_recognised new_result recs ⟨[], 0, []⟩ hall
    have hcl' : rst.m_copy_list = cl := by simpa using hcl
    subst hcl'
    have hok : setup_records new_result recs = .ok rst := hloop
    refine ⟨⟨?_, ?_⟩, ?_, ?_, ?_⟩
    · intro h
      rw [hok] at h
      cases h
    · rintro ⟨rec, hmem, hrec⟩
      rw [hall rec hmem] at hrec
      cases hrec
    · intro err h
      rw [hok] at h
      cases h
    · intro st rec h
      exact record_step_unrecognised new_result st rec h
    · intro rst' h
      rw [hok] at h
      cases h
      refine ⟨hmap, ?_⟩
      intro cle hcle
      refine ⟨?_, hsrc cle hcle⟩
      apply hall
      rw [← hmap]
      exact List.mem_map_of_mem _ hcle
  · have hex : ∃ rec ∈ recs, recognised rec.name = false := by
      by_contra hcon
      apply hall
      intro rec hmem
      cases hr : recognised rec.name with
      | true => rfl
      | false => exact absurd ⟨rec, hmem, hr⟩ hcon
    have herr := record_loop_unrecognised new_result recs ⟨[], 0, []⟩ hex
    have herr' : setup_records new_result recs =
        .error (.invalid_argument "Requested result is not available!") := herr
    refine ⟨⟨fun _ => hex, fun _ => herr'⟩, ?_, ?_, ?_⟩
    · intro err h
      rw [herr'] at h
      cases h
      rfl
    · intro st rec h
      exact record_step_unrecognised new_result st rec h
    · intro rst h
      rw [herr'] at h
      cases h

/-! ## The quantum+E sweep -/

/-- The four iterations at index `i` read only the five cells at `i`,
`h[i]` and `h[i + 1]`. -/
theorem pc_result_congr (sc : sim_constants_2lvl) (src : ℚ) (i : Nat) (g1 g2 : grid)
    (h : agree_at i g1 g2) : pc_result sc g1 src i = pc_result sc g2 src i := by
  obtain ⟨h1, h2, h3, h4, h5, h6, h7⟩ := h
  simp only [pc_result, pc_iteration, h1, h2, h3, h4, h5, h6, h7]

/-- The update at index `a` leaves the cells read at any other index as they
were. -/
theorem dm_e_update_agree (consts : List sim_constants_2lvl) (mat_indices : Nat → Nat)
    (src : ℚ) (g : grid) (a i : Nat) (h : i ≠ a) :
    agree_at i (dm_e_update consts mat_indices src g a) g := by
  simp [agree_at, dm_e_update, Function.update_noteq h]

/-- The quantum+E sweep over indices without repetition is the pointwise
description. -/
theorem dm_e_sweep_pointwise (consts : List sim_constants_2lvl) (mat_indices : Nat → Nat)
    (src : ℚ) (order : List Nat) (hnd : order.Nodup) (g : grid) :
    dm_e_sweep consts mat_indices src order g =
      dm_e_pointwise consts mat_indices src order g := by
  induction order generalizing g with
  | nil => simp [dm_e_sweep, dm_e_pointwise]
  | cons a t ih =>
    have hat : a ∉ t := (List.nodup_cons.mp hnd).1
    have hstep : dm_e_sweep consts mat_indices src (a :: t) g =
        dm_e_sweep consts mat_indices src t (dm_e_update consts mat_indices src g a) := rfl
    rw [hstep, ih (List.nodup_cons.mp hnd).2]
    have key : ∀ i, i ∈ t →
        pc_result (sim_consts_at consts (mat_indices i))
          (dm_e_update consts mat_indices src g a) src i =
        pc_result (sim_consts_at consts (mat_indices i)) g src i := by
      intro i hi
      apply pc_result_congr
      apply dm_e_update_agree
      rintro rfl
      exact hat hi
    ext i
    all_goals
      simp only [dm_e_pointwise, List.mem_cons]
      first
      | rfl
      | (by_cases hi : i ∈ t
         · have hia : i ≠ a := by rintro rfl; exact hat hi
           simp [hi, key i hi]
         · by_cases hia : i = a
           · subst hia
             simp [hi, dm_e_update]
           · simp [hi, hia, dm_e_update, Function.update_noteq hia])

/-! ## The H sweep -/

/-- The H sweep writes `h` only. -/
theorem h_sweep_frame (consts : List sim_constants_2lvl) (mat_indices : Nat → Nat)
    (order : List Nat) (g : grid) :
    (h_sweep consts mat_indices order g).e = g.e ∧
    (h_sweep consts mat_indices order g).dm11 = g.dm11 ∧
    (h_sweep consts mat_indices order g).dm12r = g.dm12r ∧
    (h_sweep consts mat_indices order g).dm12i = g.dm12i ∧
    (h_sweep consts mat_indices order g).dm22 = g.dm22 := by
  induction order generalizing g with
  | nil => simp [h_sweep]
  | cons a t ih =>
    have hstep : h_sweep consts mat_indices (a :: t) g =
        h_sweep consts mat_indices t (h_update consts mat_indices g a) := rfl
    rw [hstep]
    obtain ⟨h1, h2, h3, h4, h5⟩ := ih (h_update consts mat_indices g a)
    exact ⟨h1, h2, h3, h4, h5⟩

/-- The H sweep over indices without repetition is the pointwise
description. -/
theorem h_sweep_pointwise (consts : List sim_constants_2lvl) (mat_indices : Nat → Nat)
    (order : List Nat) (hnd : order.Nodup) (g : grid) :
    h_sweep consts mat_indices order g = h_pointwise consts mat_indices order g := by
  induction order generalizing g with
  | nil => simp [h_sweep, h_pointwise]
  | cons a t ih =>
    have hat : a ∉ t := (List.nodup_cons.mp hnd).1
    have hstep : h_sweep consts mat_indices (a :: t) g =
        h_sweep consts mat_indices t (h_update consts mat_indices g a) := rfl
    rw [hstep, ih (List.nodup_cons.mp hnd).2]
    ext i
    all_goals
      simp only [h_pointwise, h_update, List.mem_cons]
    by_cases hi : i ∈ t
    · have hia : i ≠ a := by rintro rfl; exact hat hi
      simp [hi, Function.update_noteq hia]
    · by_cases hia : i = a
      · subst hia
        simp [hi]
      · simp [hi, hia, Function.update_noteq hia]

/-- C5: for every time step `n` and every prior state, on a grid with at
least one point, after the quantum+E phase of step `n` the field at the
source index is the source value computed for that step, `E[0] = s(t_n)`;
every prediction-correction iteration at index 0 discards the value of the
field-coupling update in favour of the source value; and the H phase that
follows leaves `E[0]` alone, so the same holds after the whole step. -/
theorem C5_hard_source_wins (cm : cmath) (sv : solver) (n : Nat) (g : grid)
    (hN : 0 < sv.scen.num_gridpoints) :
    (dm_e_phase sv.m_sim_consts sv.m_mat_indices sv.scen.num_gridpoints
        (source_value cm sv.scen.timestep_size n) g).e 0 =
      source_value cm sv.scen.timestep_size n ∧
    (∀ (sc : sim_constants_2lvl) (v : pc_vars),
      (pc_iteration sc g (source_value cm sv.scen.timestep_size n) 0 v).field_e =
        source_value cm sv.scen.timestep_size n) ∧
    (grid_step cm sv n g).e 0 = source_value cm sv.scen.timestep_size n := by
  have hE : (dm_e_phase sv.m_sim_consts sv.m_mat_indices sv.scen.num_gridpoints
        (source_value cm sv.scen.timestep_size n) g).e 0 =
      source_value cm sv.scen.timestep_size n := by
    rw [dm_e_phase, dm_e_sweep_pointwise _ _ _ _ (List.nodup_range _)]
    simp [dm_e_pointwise, hN, pc_result, pc_iteration]
  refine ⟨hE, ?_, ?_⟩
  · intro sc v
    simp [pc_iteration]
  · rw [grid_step, h_phase, (h_sweep_frame _ _ _ _).1]
    exact hE

/-- C5 at a concrete input: the grid of two points of `solver_two`. -/
theorem C5_hard_source_wins_witness :
    0 < solver_two.scen.num_gridpoints ∧
    (dm_e_phase solver_two.m_sim_consts solver_two.m_mat_indices
        solver_two.scen.num_gridpoints
        (source_value cm_unit solver_two.scen.timestep_size 3) grid_e_five).e 0 =
      source_value cm_unit solver_two.scen.timestep_size 3 ∧
    (∀ (sc : sim_constants_2lvl) (v : pc_vars),
      (pc_iteration sc grid_e_five
        (source_value cm_unit solver_two.scen.timestep_size 3) 0 v).field_e =
        source_value cm_unit solver_two.scen.timestep_size 3) ∧
    (grid_step cm_unit solver_two 3 grid_e_five).e 0 =
      source_value cm_unit solver_two.scen.timestep_size 3 :=
  ⟨by simp [solver_two],
   C5_hard_source_wins cm_unit solver_two 3 grid_e_five (by simp [solver_two])⟩

/-- C4: the H phase of one time step on a grid of `N` points, applied to the
arrays `g1` that the quantum+E phase of the same step wrote, sets
`H'[i] = H[i] + M_CH(mat_indices[i-1]) * (E'[i] - E'[i-1])` for every `i`
with `1 <= i <= N-1`, where `E'` is the field of `g1`, and leaves `H[0]`,
`H[N]` and every E and density-matrix entry unchanged; the quantum+E phase
itself does not write `H`, so `H[i]` is also the value before the step. -/
theorem C4_h_phase_update (cm : cmath) (sv : solver) (n : Nat) (g : grid) :
    let N := sv.scen.num_gridpoints
    let g1 := dm_e_phase sv.m_sim_consts sv.m_mat_indices N
      (source_value cm sv.scen.timestep_size n) g
    let g2 := grid_step cm sv n g
    g2 = h_phase sv.m_sim_consts sv.m_mat_indices N g1 ∧
    g1.h = g.h ∧
    (∀ i, 1 ≤ i → i ≤ N - 1 →
      g2.h i = g1.h i +
        (sim_consts_at sv.m_sim_consts (sv.m_mat_indices (i - 1))).M_CH *
          (g1.e i - g1.e (i - 1))) ∧
    g2.h 0 = g1.h 0 ∧ g2.h N = g1.h N ∧
    g2.e = g1.e ∧ g2.dm11 = g1.dm11 ∧ g2.dm12r = g1.dm12r ∧
    g2.dm12i = g1.dm12i ∧ g2.dm22 = g1.dm22 := by
  intro N g1 g2
  have hg2 : g2 = h_pointwise sv.m_sim_consts sv.m_mat_indices
      (List.range' 1 (N - 1)) g1 := by
    show h_phase _ _ _ _ = _
    rw [h_phase, h_sweep_pointwise _ _ _ (List.nodup_range' _ _)]
  have hg1 : g1.h = g.h := by
    show (dm_e_phase _ _ _ _ _).h = _
    rw [dm_e_phase, dm_e_sweep_pointwise _ _ _ _ (List.nodup_range _)]
    rfl
  refine ⟨rfl, hg1, ?_, ?_, ?_, ?_, ?_, ?_, ?_, ?_⟩
  · intro i h1 h2
    have hmem : i ∈ List.range' 1 (N - 1) := by
      rw [List.mem_range'_1]
      omega
    rw [hg2]
    simp only [h_pointwise, hmem, if_true]
  · rw [hg2]
    simp [h_pointwise, List.mem_range'_1]
  · rw [hg2]
    have hmem : N ∉ List.range' 1 (N - 1) := by
      rw [List.mem_range'_1]
      omega
    simp only [h_pointwise, hmem, if_false]
  all_goals
    rw [hg2]
    rfl

/-! ## Independence of the sweep order -/

/-- The quantum+E updates at two distinct indices commute. -/
theorem dm_e_update_comm (consts : List sim_constants_2lvl) (mat_indices : Nat → Nat)
    (src : ℚ) (g : grid) (i j : Nat) (hij : i ≠ j) :
    dm_e_update consts mat_indices src (dm_e_update consts mat_indices src g i) j =
      dm_e_update consts mat_indices src (dm_e_update consts mat_indices src g j) i := by
  have hj : pc_result (sim_consts_at consts (mat_indices j))
        (dm_e_update consts mat_indices src g i) src j =
      pc_result (sim_consts_at consts (mat_indices j)) g src j :=
    pc_result_congr _ _ _ _ _ (dm_e_update_agree _ _ _ _ _ _ (Ne.symm hij))
  have hi : pc_result (sim_consts_at consts (mat_indices i))
        (dm_e_update consts mat_indices src g j) src i =
      pc_result (sim_consts_at consts (mat_indices i)) g src i :=
    pc_result_congr _ _ _ _ _ (dm_e_update_agree _ _ _ _ _ _ hij)
  have hj' := hj
  have hi' := hi
  simp only [dm_e_update] at hj' hi' ⊢
  rw [hj', hi']
  ext k
  all_goals
    first
    | rfl
    | (simp only []
       rw [Function.update_comm hij])

/-- The H updates at two distinct indices commute. -/
theorem h_update_comm (consts : List sim_constants_2lvl) (mat_indices : Nat → Nat)
    (g : grid) (i j : Nat) (hij : i ≠ j) :
    h_update consts mat_indices (h_update consts mat_indices g i) j =
      h_update consts mat_indices (h_update consts mat_indices g j) i := by
  simp only [h_update, Function.update_noteq hij, Function.update_noteq (Ne.symm hij)]
  rw [Function.update_comm hij]

/-- C9: within one time step the result does not depend on the order in
which grid indices are processed.  The quantum+E update at index `i` writes
only `dm11`, `dm12r`, `dm12i`, `dm22`, `E` at `i` and its outcome depends only
on those cells and `H[i]`, `H[i+1]`; the H update at `i` writes only `H[i]`
and its outcome depends only on `E[i]`, `E[i-1]` and the cell `H[i]` it adds
to.  So the updates at two distinct indices commute, in both sweeps, and a
sweep over any permutation of the indices yields the state of the sequential
sweep. -/
theorem C9_sweep_order_independent (consts : List sim_constants_2lvl)
    (mat_indices : Nat → Nat) (src : ℚ) (N : Nat) (g : grid) :
    (∀ i j, i ≠ j →
      dm_e_update consts mat_indices src (dm_e_update consts mat_indices src g i) j =
        dm_e_update consts mat_indices src (dm_e_update consts mat_indices src g j) i) ∧
    (∀ i j, i ≠ j →
      h_update consts mat_indices (h_update consts mat_indices g i) j =
        h_update consts mat_indices (h_update consts mat_indices g j) i) ∧
    (∀ order : List Nat, order.Perm (List.range N) →
      dm_e_sweep consts mat_indices src order g = dm_e_phase consts mat_indices N src g) ∧
    (∀ order : List Nat, order.Perm (List.range' 1 (N - 1)) →
      h_sweep consts mat_indices order g = h_phase consts mat_indices N g) ∧
    (∀ i k, k ≠ i →
      (dm_e_update consts mat_indices src g i).dm11 k = g.dm11 k ∧
      (dm_e_update consts mat_indices src g i).dm12r k = g.dm12r k ∧
      (dm_e_update consts mat_indices src g i).dm12i k = g.dm12i k ∧
      (dm_e_update consts mat_indices src g i).dm22 k = g.dm22 k ∧
      (dm_e_update consts mat_indices src g i).e k = g.e k) ∧
    (∀ i, (dm_e_update consts mat_indices src g i).h = g.h) ∧
    (∀ i (g1 : grid), agree_at i g g1 →
      (dm_e_update consts mat_indices src g i).dm11 i =
        (dm_e_update consts mat_indices src g1 i).dm11 i ∧
      (dm_e_update consts mat_indices src g i).dm12r i =
        (dm_e_update consts mat_indices src g1 i).dm12r i ∧
      (dm_e_update consts mat_indices src g i).dm12i i =
        (dm_e_update consts mat_indices src g1 i).dm12i i ∧
      (dm_e_update consts mat_indices src g i).dm22 i =
        (dm_e_update consts mat_indices src g1 i).dm22 i ∧
      (dm_e_update consts mat_indices src g i).e i =
        (dm_e_update consts mat_indices src g1 i).e i) ∧
    (∀ i k, k ≠ i → (h_update consts mat_indices g i).h k = g.h k) ∧
    (∀ i, (h_update consts mat_indices g i).e = g.e ∧
      (h_update consts mat_indices g i).dm11 = g.dm11 ∧
      (h_update consts mat_indices g i).dm12r = g.dm12r ∧
      (h_update consts mat_indices g i).dm12i = g.dm12i ∧
      (h_update consts mat_indices g i).dm22 = g.dm22) ∧
    (∀ i (g1 : grid), g1.e = g.e → g1.h i = g.h i →
      (h_update consts mat_indices g i).h i = (h_update consts mat_indices g1 i).h i) := by
  refine ⟨?_, ?_, ?_, ?_, ?_, ?_, ?_, ?_, ?_, ?_⟩
  · intro i j hij
    exact dm_e_update_comm consts mat_indices src g i j hij
  · intro i j hij
    exact h_update_comm consts mat_indices g i j hij
  · intro order hp
    simp only [dm_e_sweep, dm_e_phase]
    apply List.Perm.foldl_eq' hp
    intro x _ y _ z
    by_cases hxy : x = y
    · rw [hxy]
    · exact dm_e_update_comm consts mat_indices src z x y hxy
  · intro order hp
    simp only [h_sweep, h_phase]
    apply List.Perm.foldl_eq' hp
    intro x _ y _ z
    by_cases hxy : x = y
    · rw [hxy]
    · exact h_update_comm consts mat_indices z x y hxy
  · intro i k hk
    simp [dm_e_update, Function.update_noteq hk]
  · intro i
    rfl
  · intro i g1 hag
    have := pc_result_congr (sim_consts_at consts (mat_indices i)) src i g g1 hag
    simp [dm_e_update, this]
  · intro i k hk
    simp [h_update, Function.update_noteq hk]
  · intro i
    exact ⟨rfl, rfl, rfl, rfl, rfl⟩
  · intro i g1 he hh
    simp [h_update, he, hh]

/-! ## Dielectric grid points -/

/-- With the constants of the dielectric branch the four iterations return
the density matrix they started from and the leapfrog field (the source
value at index 0). -/
theorem pc_result_dielectric (sc : sim_constants_2lvl) (g : grid) (src : ℚ) (i : Nat)
    (hd : is_dielectric sc) :
    pc_result sc g src i =
      ⟨g.dm11 i, g.dm12r i, g.dm12i i, g.dm22 i,
        if i = 0 then src
        else g.e i + sc.M_CE * (g.h (i + 1) - g.h i) * sc.d_x_inv⟩ := by
  obtain ⟨h1, h2, h3, h4, h5, _, _⟩ := hd
  simp only [pc_result, pc_iteration, h1, h2, h3, h4, h5]
  by_cases hi : i = 0
  · simp [hi]
  · simp only [hi, if_false]
    congr 1 <;> ring

/-- One time step over a grid whose materials are all dielectric is one
step of the reference FDTD update on `E` and `H`, and leaves the density
matrix alone. -/
theorem grid_step_dielectric (cm : cmath) (sv : solver) (n : Nat) (g : grid)
    (hd : ∀ i, i < sv.scen.num_gridpoints →
      is_dielectric (sim_consts_at sv.m_sim_consts (sv.m_mat_indices i))) :
    (grid_step cm sv n g).dm11 = g.dm11 ∧ (grid_step cm sv n g).dm12r = g.dm12r ∧
    (grid_step cm sv n g).dm12i = g.dm12i ∧ (grid_step cm sv n g).dm22 = g.dm22 ∧
    (⟨(grid_step cm sv n g).e, (grid_step cm sv n g).h⟩ : fdtd_fields) =
      fdtd_reference_step
        (fun i => (sim_consts_at sv.m_sim_consts (sv.m_mat_indices i)).M_CE)
        (fun i => (sim_consts_at sv.m_sim_consts (sv.m_mat_indices i)).M_CH)
        (fun i => (sim_consts_at sv.m_sim_consts (sv.m_mat_indices i)).d_x_inv)
        sv.scen.num_gridpoints (source_value cm sv.scen.timestep_size n) ⟨g.e, g.h⟩ := by
  have hgs : grid_step cm sv n g =
      h_pointwise sv.m_sim_consts sv.m_mat_indices
        (List.range' 1 (sv.scen.num_gridpoints - 1))
        (dm_e_pointwise sv.m_sim_consts sv.m_mat_indices
          (source_value cm sv.scen.timestep_size n)
          (List.range sv.scen.num_gridpoints) g) := by
    rw [grid_step, h_phase, h_sweep_pointwise _ _ _ (List.nodup_range' _ _), dm_e_phase,
      dm_e_sweep_pointwise _ _ _ _ (List.nodup_range _)]
  have hdm : ∀ i, i ∈ List.range sv.scen.num_gridpoints →
      pc_result (sim_consts_at sv.m_sim_consts (sv.m_mat_indices i)) g
        (source_value cm sv.scen.timestep_size n) i =
      ⟨g.dm11 i, g.dm12r i, g.dm12i i, g.dm22 i,
        if i = 0 then source_value cm sv.scen.timestep_size n
        else g.e i + (sim_consts_at sv.m_sim_consts (sv.m_mat_indices i)).M_CE *
          (g.h (i + 1) - g.h i) *
          (sim_consts_at sv.m_sim_consts (sv.m_mat_indices i)).d_x_inv⟩ := by
    intro i hi
    exact pc_result_dielectric _ g _ i (hd i (List.mem_range.mp hi))
  rw [hgs]
  refine ⟨?_, ?_, ?_, ?_, ?_⟩
  · funext i
    simp only [h_pointwise, dm_e_pointwise]
    by_cases hi : i ∈ List.range sv.scen.num_gridpoints
    · simp [hi, hdm i hi]
    · simp [hi]
  · funext i
    simp only [h_pointwise, dm_e_pointwise]
    by_cases hi : i ∈ List.range sv.scen.num_gridpoints
    · simp [hi, hdm i hi]
    · simp [hi]
  · funext i
    simp only [h_pointwise, dm_e_pointwise]
    by_cases hi : i ∈ List.range sv.scen.num_gridpoints
    · simp [hi, hdm i hi]
    · simp [hi]
  · funext i
    simp only [h_pointwise, dm_e_pointwise]
    by_cases hi : i ∈ List.range sv.scen.num_gridpoints
    · simp [hi, hdm i hi]
    · simp [hi]
  · have he : (dm_e_pointwise sv.m_sim_consts sv.m_mat_indices
          (source_value cm sv.scen.timestep_size n)
          (List.range sv.scen.num_gridpoints) g).e =
        fun i => if i < sv.scen.num_gridpoints then
          (if i = 0 then source_value cm sv.scen.timestep_size n
           else g.e i + (sim_consts_at sv.m_sim_consts (sv.m_mat_indices i)).M_CE *
             (g.h (i + 1) - g.h i) *
             (sim_consts_at sv.m_sim_consts (sv.m_mat_indices i)).d_x_inv)
          else g.e i := by
      funext i
      simp only [dm_e_pointwise]
      by_cases hi : i < sv.scen.num_gridpoints
      · have hi' : i ∈ List.range sv.scen.num_gridpoints := List.mem_range.mpr hi
        simp only [hi', if_true, hdm i hi', hi]
      · have hi' : i ∉ List.range sv.scen.num_gridpoints := by
          rw [List.mem_range]
          exact hi
        simp only [hi', if_false, hi]
    simp only [fdtd_reference_step, h_pointwise, he]
    congr 1
    funext i
    have hiff : i ∈ List.range' 1 (sv.scen.num_gridpoints - 1) ↔
        (1 ≤ i ∧ i < sv.scen.num_gridpoints) := by
      rw [List.mem_range'_1]
      omega
    by_cases hi : 1 ≤ i ∧ i < sv.scen.num_gridpoints
    · simp only [hiff.mpr hi, hi, if_true]
      rfl
    · have hn : i ∉ List.range' 1 (sv.scen.num_gridpoints - 1) := fun hc => hi (hiff.mp hc)
      simp only [hn, hi, if_false]
      rfl

/-- C6: for a grid index `i` whose constants are those of the dielectric
branch, every step of `run()` leaves `dm11[i]`, `dm22[i]`, `dm12r[i]`,
`dm12i[i]` unchanged, and for `i != 0` the new field is the leapfrog update
`E'[i] = E[i] + M_CE * (H[i+1] - H[i]) * d_x_inv`.  Over a grid whose indices
are all dielectric, after any number of steps the density matrix is the
initial one and `E`, `H` are those of the reference FDTD-only update driven
by the same source values. -/
theorem C6_dielectric_reduces_to_fdtd (cm : cmath) (sv : solver) :
    (∀ (n : Nat) (g : grid) (i : Nat), i < sv.scen.num_gridpoints →
      is_dielectric (sim_consts_at sv.m_sim_consts (sv.m_mat_indices i)) →
      (grid_step cm sv n g).dm11 i = g.dm11 i ∧
      (grid_step cm sv n g).dm22 i = g.dm22 i ∧
      (grid_step cm sv n g).dm12r i = g.dm12r i ∧
      (grid_step cm sv n g).dm12i i = g.dm12i i ∧
      (i ≠ 0 → (grid_step cm sv n g).e i =
        g.e i + (sim_consts_at sv.m_sim_consts (sv.m_mat_indices i)).M_CE *
          (g.h (i + 1) - g.h i) *
          (sim_consts_at sv.m_sim_consts (sv.m_mat_indices i)).d_x_inv)) ∧
    ((∀ i, i < sv.scen.num_gridpoints →
        is_dielectric (sim_consts_at sv.m_sim_consts (sv.m_mat_indices i))) →
      ∀ (k : Nat) (g : grid),
        (grid_steps cm sv k g).dm11 = g.dm11 ∧
        (grid_steps cm sv k g).dm22 = g.dm22 ∧
        (grid_steps cm sv k g).dm12r = g.dm12r ∧
        (grid_steps cm sv k g).dm12i = g.dm12i ∧
        (⟨(grid_steps cm sv k g).e, (grid_steps cm sv k g).h⟩ : fdtd_fields) =
          fdtd_reference_steps
            (fun i => (sim_consts_at sv.m_sim_consts (sv.m_mat_indices i)).M_CE)
            (fun i => (sim_consts_at sv.m_sim_consts (sv.m_mat_indices i)).M_CH)
            (fun i => (sim_consts_at sv.m_sim_consts (sv.m_mat_indices i)).d_x_inv)
            sv.scen.num_gridpoints (fun n => source_value cm sv.scen.timestep_size n)
            k ⟨g.e, g.h⟩) := by
  constructor
  · intro n g i hi hd
    have hgs : grid_step cm sv n g =
        h_pointwise sv.m_sim_consts sv.m_mat_indices
          (List.range' 1 (sv.scen.num_gridpoints - 1))
          (dm_e_pointwise sv.m_sim_consts sv.m_mat_indices
            (source_value cm sv.scen.timestep_size n)
            (List.range sv.scen.num_gridpoints) g) := by
      rw [grid_step, h_phase, h_sweep_pointwise _ _ _ (List.nodup_range' _ _), dm_e_phase,
        dm_e_sweep_pointwise _ _ _ _ (List.nodup_range _)]
    have hi' : i ∈ List.range sv.scen.num_gridpoints := List.mem_range.mpr hi
    have hpc := pc_result_dielectric _ g (source_value cm sv.scen.timestep_size n) i hd
    rw [hgs]
    simp only [h_pointwise, dm_e_pointwise, hi', if_true, hpc]
    refine ⟨trivial, trivial, trivial, trivial, ?_⟩
    intro h0
    simp only [h0, if_false]
  · intro hd k g
    induction k with
    | zero => exact ⟨rfl, rfl, rfl, rfl, rfl⟩
    | succ k ih =>
      obtain ⟨h1, h2, h3, h4, h5⟩ := ih
      obtain ⟨s1, s2, s3, s4, s5⟩ := grid_step_dielectric cm sv k (grid_steps cm sv k g) hd
      refine ⟨?_, ?_, ?_, ?_, ?_⟩
      · show (grid_step cm sv k (grid_steps cm sv k g)).dm11 = _
        rw [s1, h1]
      · show (grid_step cm sv k (grid_steps cm sv k g)).dm22 = _
        rw [s4, h2]
      · show (grid_step cm sv k (grid_steps cm sv k g)).dm12r = _
        rw [s2, h3]
      · show (grid_step cm sv k (grid_steps cm sv k g)).dm12i = _
        rw [s3, h4]
      · show (⟨(grid_step cm sv k (grid_steps cm sv k g)).e,
            (grid_step cm sv k (grid_steps cm sv k g)).h⟩ : fdtd_fields) = _
        rw [s5, h5]
        rfl

/-- The constants computed for a material without quantum description are
those of the dielectric branch. -/
theorem make_sim_constants_dielectric (pc : phys_consts) (cm : cmath) (d_t d_x : ℚ)
    (mat : material) (h : mat.qm = none) :
    is_dielectric (make_sim_constants pc cm d_t d_x mat) := by
  simp [make_sim_constants, h, is_dielectric]

/-- C6 at a concrete input: `solver_two`, a grid of two points of one
dielectric material with `M_CE = d_x_inv = 1`, started from `grid_e_five`:
both indices are dielectric, and the statement holds there. -/
theorem C6_dielectric_reduces_to_fdtd_witness :
    (∀ i, i < solver_two.scen.num_gridpoints →
      is_dielectric (sim_consts_at solver_two.m_sim_consts (solver_two.m_mat_indices i))) ∧
    (grid_step cm_unit solver_two 0 grid_e_five).dm22 1 = grid_e_five.dm22 1 ∧
    (grid_step cm_unit solver_two 0 grid_e_five).e 1 =
      grid_e_five.e 1 +
        (sim_consts_at solver_two.m_sim_consts (solver_two.m_mat_indices 1)).M_CE *
          (grid_e_five.h (1 + 1) - grid_e_five.h 1) *
          (sim_consts_at solver_two.m_sim_consts (solver_two.m_mat_indices 1)).d_x_inv ∧
    (⟨(grid_steps cm_unit solver_two 3 grid_e_five).e,
        (grid_steps cm_unit solver_two 3 grid_e_five).h⟩ : fdtd_fields) =
      fdtd_reference_steps
        (fun i => (sim_consts_at solver_two.m_sim_consts (solver_two.m_mat_indices i)).M_CE)
        (fun i => (sim_consts_at solver_two.m_sim_consts (solver_two.m_mat_indices i)).M_CH)
        (fun i =>
          (sim_consts_at solver_two.m_sim_consts (solver_two.m_mat_indices i)).d_x_inv)
        solver_two.scen.num_gridpoints
        (fun n => source_value cm_unit solver_two.scen.timestep_size n)
        3 ⟨grid_e_five.e, grid_e_five.h⟩ := by
  have hd : ∀ i, i < solver_two.scen.num_gridpoints →
      is_dielectric (sim_consts_at solver_two.m_sim_consts (solver_two.m_mat_indices i)) := by
    intro i _
    exact make_sim_constants_dielectric pc_unit cm_unit 1 1 (dielectric "A") rfl
  have hC := C6_dielectric_reduces_to_fdtd cm_unit solver_two
  have h1 := hC.1 0 grid_e_five 1 (by simp [solver_two]) (hd 1 (by simp [solver_two]))
  exact ⟨hd, h1.2.1, h1.2.2.2.2 (by decide), (hC.2 hd 3 grid_e_five).2.2.2.2⟩

/-! ## Material resolution -/

/-- The test of the inner loop is `start <= x <= end`. -/
theorem in_region_iff (x : ℚ) (reg : region) :
    in_region x reg = true ↔ reg.start ≤ x ∧ x ≤ reg.stop := by
  simp [in_region]

/-- An index below `2^31` survives the conversion to `int`. -/
theorem to_int_of_lt (v : Nat) (h : v < 2 ^ 31) : to_int v = (v : Int) := by
  have h1 : v % 2 ^ 32 = v := Nat.mod_eq_of_lt (by omega)
  simp only [to_int, h1, h, if_true]

/-- The inner loop returns the material index of the first region that
contains `x`, and `-1` when there is none. -/
theorem find_region_idx_eq (id_to_idx : String → Nat) (x : ℚ) (regions : List region)
    (hidx : ∀ key, id_to_idx key < 2 ^ 31) :
    find_region_idx id_to_idx x regions =
      match first_region regions x with
      | none => -1
      | some reg => (id_to_idx reg.mat.id : Int) := by
  induction regions with
  | nil => rfl
  | cons reg rest ih =>
    by_cases h : in_region x reg = true
    · simp [find_region_idx, first_region, List.find?, h, to_int_of_lt _ (hidx _)]
    · simp only [Bool.not_eq_true] at h
      simp only [find_region_idx, first_region, List.find?, h] at ih ⊢
      simpa using ih

/-- The body of the loop at an index with a containing region stores the
material index of the first such region. -/
theorem index_step_found (dev : device) (scen : scenario) (cs : consts_state)
    (hidx : ∀ key, cs.id_to_idx key < 2 ^ 31) (st : index_state) (i : Nat) (reg : region)
    (h : first_region dev.regions ((i : ℚ) * scen.gridpoint_size) = some reg) :
    ∃ st1, index_step dev scen cs st i = .ok st1 ∧
      st1.m_mat_indices = Function.update st.m_mat_indices i (cs.id_to_idx reg.mat.id) := by
  have hf := find_region_idx_eq cs.id_to_idx ((i : ℚ) * scen.gridpoint_size) dev.regions hidx
  rw [h] at hf
  simp only at hf
  simp only [index_step, hf]
  have hnn : ¬ ((cs.id_to_idx reg.mat.id : Int) < 0) :=
    Int.not_lt.mpr (Int.ofNat_zero_le _)
  simp only [hnn, if_false, Int.toNat_ofNat]
  exact ⟨_, rfl, rfl⟩

/-- The body of the loop at an index with no containing region throws. -/
theorem index_step_not_found (dev : device) (scen : scenario) (cs : consts_state)
    (hidx : ∀ key, cs.id_to_idx key < 2 ^ 31) (st : index_state) (i : Nat)
    (h : first_region dev.regions ((i : ℚ) * scen.gridpoint_size) = none) :
    index_step dev scen cs st i = .error (.invalid_argument "region not found") := by
  have hf := find_region_idx_eq cs.id_to_idx ((i : ℚ) * scen.gridpoint_size) dev.regions hidx
  rw [h] at hf
  simp only at hf
  simp [index_step, hf]

/-- The loop over the listed indices: it throws "region not found" when a
listed index has no containing region, and otherwise stores at every listed
index the material index of its first containing region and leaves the other
cells of `m_mat_indices` alone. -/
theorem index_loop_spec (dev : device) (scen : scenario) (cs : consts_state)
    (hidx : ∀ key, cs.id_to_idx key < 2 ^ 31) (l : List Nat) (st : index_state) :
    ((∃ i ∈ l, first_region dev.regions ((i : ℚ) * scen.gridpoint_size) = none) ∧
      index_loop dev scen cs l st = .error (.invalid_argument "region not found")) ∨
    ((∀ i ∈ l, first_region dev.regions ((i : ℚ) * scen.gridpoint_size) ≠ none) ∧
      ∃ st1, index_loop dev scen cs l st = .ok st1 ∧
        (∀ i ∈ l, ∃ reg,
          first_region dev.regions ((i : ℚ) * scen.gridpoint_size) = some reg ∧
          st1.m_mat_indices i = cs.id_to_idx reg.mat.id) ∧
        (∀ k, k ∉ l → st1.m_mat_indices k = st.m_mat_indices k)) := by
  induction l generalizing st with
  | nil => exact Or.inr ⟨by simp, st, rfl, by simp, by simp⟩
  | cons a t ih =>
    cases hfa : first_region dev.regions ((a : ℚ) * scen.gridpoint_size) with
    | none =>
      left
      refine ⟨⟨a, List.mem_cons_self _ _, hfa⟩, ?_⟩
      simp only [index_loop, index_step_not_found dev scen cs hidx st a hfa]
    | some reg =>
      obtain ⟨st1, hstep, hmi⟩ := index_step_found dev scen cs hidx st a reg hfa
      rcases ih st1 with ⟨⟨i, hi, hnone⟩, herr⟩ | ⟨hall, st2, hok, hfound, hframe⟩
      · left
        refine ⟨⟨i, List.mem_cons_of_mem _ hi, hnone⟩, ?_⟩
        simp only [index_loop, hstep]
        exact herr
      · right
        refine ⟨?_, st2, ?_, ?_, ?_⟩
        · intro i hi
          rcases List.mem_cons.mp hi with rfl | hi
          · rw [hfa]
            simp
          · exact hall i hi
        · simp only [index_loop, hstep]
          exact hok
        · intro i hi
          by_cases hit : i ∈ t
          · exact hfound i hit
          · rcases List.mem_cons.mp hi with rfl | hi
            · refine ⟨reg, hfa, ?_⟩
              rw [hframe _ hit, hmi, Function.update_same]
            · exact absurd hi hit
        · intro k hk
          have hka : k ≠ a := fun hc => hk (hc ▸ List.mem_cons_self _ _)
          have hkt : k ∉ t := fun hc => hk (List.mem_cons_of_mem _ hc)
          rw [hframe k hkt, hmi, Function.update_noteq hka]

/-- The loop of line 167 ends normally exactly when the sequence of its
iterations does, with the same state. -/
theorem setup_indices_eq_ok (dev : device) (scen : scenario) (cs : consts_state)
    (st st1 : index_state) :
    setup_indices dev scen cs st = .ok st1 ↔
      index_loop dev scen cs (List.range scen.num_gridpoints) st = .ok st1 := by
  unfold setup_indices
  cases index_loop dev scen cs (List.range scen.num_gridpoints) st with
  | error err => simp
  | ok st2 => simp

/-- When an iteration of the loop of line 167 throws, the exception does not
leave the worksharing region. -/
theorem setup_indices_of_throw (dev : device) (scen : scenario) (cs : consts_state)
    (st : index_state) (err : failure)
    (h : index_loop dev scen cs (List.range scen.num_gridpoints) st = .error err) :
    setup_indices dev scen cs st =
      .error (.undefined "exception leaves the omp for region") := by
  unfold setup_indices
  rw [h]

/-- C7 (as the code behaves): in the constructor's material-resolution loop,
with the exact coordinate `x = i * d_x` for grid index `i` and material
indices below `2^31` (so that the `int` variable `idx` holds them).  When the
loop ends, `mat_indices[i]` is, for every grid index `i`, the material index
`id_to_idx[...]` of the first region in region-list order with
`start <= x <= end`.  The body throws `invalid_argument("region not found")`
if and only if some grid index has no such region, but the throw sits inside
the `#pragma omp for` loop: the exception cannot leave the worksharing
region, so the loop never hands an `invalid_argument` to the caller of the
constructor, whatever its message, and the program is ended instead. -/
theorem C7_region_not_found_ends_program (dev : device) (scen : scenario)
    (cs : consts_state) (st : index_state) (hidx : ∀ key, cs.id_to_idx key < 2 ^ 31) :
    (∀ what, setup_indices dev scen cs st ≠ .error (.invalid_argument what)) ∧
    (index_loop dev scen cs (List.range scen.num_gridpoints) st =
        .error (.invalid_argument "region not found") ↔
      ∃ i, i < scen.num_gridpoints ∧
        ∀ reg ∈ dev.regions, ¬ (reg.start ≤ (i : ℚ) * scen.gridpoint_size ∧
          (i : ℚ) * scen.gridpoint_size ≤ reg.stop)) ∧
    (setup_indices dev scen cs st =
        .error (.undefined "exception leaves the omp for region") ↔
      ∃ i, i < scen.num_gridpoints ∧
        ∀ reg ∈ dev.regions, ¬ (reg.start ≤ (i : ℚ) * scen.gridpoint_size ∧
          (i : ℚ) * scen.gridpoint_size ≤ reg.stop)) ∧
    (∀ st1, setup_indices dev scen cs st = .ok st1 →
      ∀ i, i < scen.num_gridpoints →
        ∃ reg, first_region dev.regions ((i : ℚ) * scen.gridpoint_size) = some reg ∧
          (reg.start ≤ (i : ℚ) * scen.gridpoint_size ∧
            (i : ℚ) * scen.gridpoint_size ≤ reg.stop) ∧
          st1.m_mat_indices i = cs.id_to_idx reg.mat.id) := by
  have hnone : ∀ i : Nat,
      first_region dev.regions ((i : ℚ) * scen.gridpoint_size) = none ↔
      ∀ reg ∈ dev.regions, ¬ (reg.start ≤ (i : ℚ) * scen.gridpoint_size ∧
          (i : ℚ) * scen.gridpoint_size ≤ reg.stop) := by
    intro i
    simp only [first_region, List.find?_eq_none, in_region_iff]
  have hnever : ∀ what, setup_indices dev scen cs st ≠ .error (.invalid_argument what) := by
    intro what h
    unfold setup_indices at h
    cases hl : index_loop dev scen cs (List.range scen.num_gridpoints) st with
    | error err =>
      rw [hl] at h
      cases h
    | ok st2 =>
      rw [hl] at h
      cases h
  rcases index_loop_spec dev scen cs hidx (List.range scen.num_gridpoints) st with
    ⟨⟨i, hi, hn⟩, herr⟩ | ⟨hall, st2, hok, hfound, _⟩
  · have hex : ∃ i, i < scen.num_gridpoints ∧
        ∀ reg ∈ dev.regions, ¬ (reg.start ≤ (i : ℚ) * scen.gridpoint_size ∧
          (i : ℚ) * scen.gridpoint_size ≤ reg.stop) :=
      ⟨i, List.mem_range.mp hi, (hnone i).mp hn⟩
    have hterm := setup_indices_of_throw dev scen cs st _ herr
    refine ⟨hnever, ⟨fun _ => hex, fun _ => herr⟩, ⟨fun _ => hex, fun _ => hterm⟩, ?_⟩
    intro st1 h
    rw [hterm] at h
    cases h
  · have hok' : setup_indices dev scen cs st = .ok st2 :=
      (setup_indices_eq_ok dev scen cs st st2).mpr hok
    have hno : ¬ ∃ i, i < scen.num_gridpoints ∧
        ∀ reg ∈ dev.regions, ¬ (reg.start ≤ (i : ℚ) * scen.gridpoint_size ∧
          (i : ℚ) * scen.gridpoint_size ≤ reg.stop) := by
      rintro ⟨i, hi, hreg⟩
      exact absurd ((hnone i).mpr hreg) (hall i (List.mem_range.mpr hi))
    refine ⟨hnever, ⟨?_, fun h => absurd h hno⟩, ⟨?_, fun h => absurd h hno⟩, ?_⟩
    · intro h
      rw [hok] at h
      cases h
    · intro h
      rw [hok'] at h
      cases h
    · intro st1 h
      rw [hok'] at h
      cases h
      intro i hi
      obtain ⟨reg, hreg, hval⟩ := hfound i (List.mem_range.mpr hi)
      refine ⟨reg, hreg, ?_, hval⟩
      have := List.find?_some hreg
      exact (in_region_iff _ _).mp this

/-! ## Construction -/

/-- A block continues exactly when its first step succeeds. -/
theorem and_then_eq_ok {α β : Type} (r : Except failure α) (f : α → Except failure β)
    (b : β) : and_then r f = .ok b ↔ ∃ a, r = .ok a ∧ f a = .ok b := by
  cases r with
  | error err => simp [and_then]
  | ok a => simp [and_then]

/-- A step that succeeded hands its value to the rest of the block. -/
theorem and_then_ok {α β : Type} (a : α) (f : α → Except failure β) :
    and_then (.ok a) f = f a := rfl

/-- The settings block succeeds only on a scenario with at least one grid
point, and leaves the grid size, the records and the end time alone. -/
theorem setup_settings_ok (pc : phys_consts) (cm : cmath) (dev : device)
    (scen scen1 : scenario) (h : setup_settings pc cm dev scen = .ok scen1) :
    0 < scen.num_gridpoints ∧ scen1.num_gridpoints = scen.num_gridpoints ∧
    scen1.records = scen.records ∧ scen1.endtime = scen.endtime := by
  unfold setup_settings at h
  by_cases hN : 0 < scen.num_gridpoints
  · rw [if_pos hN] at h
    obtain ⟨velocity, _, h⟩ := (and_then_eq_ok _ _ _).mp h
    obtain ⟨d_x, _, h⟩ := (and_then_eq_ok _ _ _).mp h
    obtain ⟨d_t0, _, h⟩ := (and_then_eq_ok _ _ _).mp h
    obtain ⟨q, _, h⟩ := (and_then_eq_ok _ _ _).mp h
    obtain ⟨n_t, _, h⟩ := (and_then_eq_ok _ _ _).mp h
    obtain ⟨d_t, _, h⟩ := (and_then_eq_ok _ _ _).mp h
    cases h
    exact ⟨hN, rfl, rfl, rfl⟩
  · rw [if_neg hN] at h
    cases h

/-- The settings block on the concrete scenario: grid spacing one, three
time steps of size one half. -/
theorem setup_settings_three :
    setup_settings pc_unit cm_unit dev_one scen_three = .ok scen_three_set := by
  have h0 : (0 < scen_three.num_gridpoints) := by simp [scen_three]
  have h1 : fdiv 1 (cm_unit.sqrt
      (pc_unit.MU0 * pc_unit.EPS0 * dev_one.minimum_permittivity)) = .ok 1 := by
    simp [fdiv, cm_unit, pc_unit, dev_one]
  have h2 : fdiv dev_one.length ((grid_divisor scen_three.num_gridpoints : Nat) : ℚ) =
      .ok 1 := by
    simp [fdiv, grid_divisor, dev_one, scen_three]
  have h3 : fdiv ((1 / 2) * 1) 1 = .ok (1 / 2) := by
    simp [fdiv]
  have h4 : fdiv scen_three.endtime (1 / 2) = .ok 2 := by
    simp [fdiv, scen_three]
  have h5 : to_unsigned (Int.ceil (2 : ℚ) + 1) = .ok 3 := by
    simp [to_unsigned]
  have h6 : fdiv scen_three.endtime ((step_divisor 3 : Nat) : ℚ) = .ok (1 / 2) := by
    simp [fdiv, step_divisor, scen_three]
  simp only [setup_settings, h0, if_true, h1, h2, h3, h4, h5, h6, and_then_ok]
  simp [scen_three_set, scen_three]

/-- The body of the loop over the grid indices zeroes `h[i]`, zeroes `h[i + 1]`
at the last grid index, and keeps every zero of `h`. -/
theorem index_step_h (dev : device) (scen : scenario) (cs : consts_state)
    (st st1 : index_state) (i : Nat) (h : index_step dev scen cs st i = .ok st1) :
    st1.g.h i = 0 ∧ (i = scen.num_gridpoints - 1 → st1.g.h (i + 1) = 0) ∧
    ∀ k, st.g.h k = 0 → st1.g.h k = 0 := by
  unfold index_step at h
  simp only at h
  split at h
  · cases h
  · cases h
    refine ⟨?_, ?_, ?_⟩
    · by_cases hi : i = scen.num_gridpoints - 1
      · simp only [if_pos hi, Function.update_apply]
        split_ifs <;> rfl
      · simp only [if_neg hi, Function.update_apply]
        split_ifs <;> rfl
    · intro hi
      simp only [if_pos hi, Function.update_apply]
      split_ifs <;> rfl
    · intro k hk
      by_cases hi : i = scen.num_gridpoints - 1
      · simp only [if_pos hi, Function.update_apply]
        split_ifs <;> first | rfl | exact hk
      · simp only [if_neg hi, Function.update_apply]
        split_ifs <;> first | rfl | exact hk

/-- The loop over the listed grid indices zeroes `h` at every listed index,
zeroes the extra cell of `h` when the last grid index is listed, and keeps
every zero of `h`. -/
theorem index_loop_h (dev : device) (scen : scenario) (cs : consts_state)
    (l : List Nat) (st st1 : index_state) (h : index_loop dev scen cs l st = .ok st1) :
    (∀ i ∈ l, st1.g.h i = 0) ∧
    (scen.num_gridpoints - 1 ∈ l → st1.g.h (scen.num_gridpoints - 1 + 1) = 0) ∧
    ∀ k, st.g.h k = 0 → st1.g.h k = 0 := by
  induction l generalizing st with
  | nil =>
    cases h
    simp
  | cons a t ih =>
    simp only [index_loop] at h
    split at h
    · cases h
    · rename_i st2 hstep
      obtain ⟨h1, h2, h3⟩ := index_step_h dev scen cs st st2 a hstep
      obtain ⟨i1, i2, i3⟩ := ih st2 h
      refine ⟨?_, ?_, ?_⟩
      · intro i hi
        rcases List.mem_cons.mp hi with rfl | hi
        · exact i3 _ h1
        · exact i1 i hi
      · intro hm
        rcases List.mem_cons.mp hm with hm | hm
        · have := h2 hm.symm
          rw [← hm] at this
          exact i3 _ this
        · exact i2 hm
      · intro k hk
        exact i3 k (h3 k hk)

/-- The data arrays after `k` iterations of the main loop are those of `k`
field steps: the recording phase does not write them. -/
theorem time_loop_grid (cm : cmath) (sv : solver) (k : Nat) (st st1 : run_state)
    (h : time_loop cm sv k st = .ok st1) : st1.g = grid_steps cm sv k st.g := by
  induction k generalizing st1 with
  | zero =>
    cases h
    rfl
  | succ k ih =>
    simp only [time_loop] at h
    split at h
    · cases h
    · rename_i st2 hloop
      have := ih st2 hloop
      simp only [time_step] at h
      split at h
      · cases h
      · cases h
        simp only [grid_steps, this]

/-- One time step leaves the two boundary cells of `h` as they were. -/
theorem grid_step_h_boundary (cm : cmath) (sv : solver) (n : Nat) (g : grid) :
    (grid_step cm sv n g).h 0 = g.h 0 ∧
    (grid_step cm sv n g).h sv.scen.num_gridpoints = g.h sv.scen.num_gridpoints := by
  have hgs : grid_step cm sv n g =
      h_pointwise sv.m_sim_consts sv.m_mat_indices
        (List.range' 1 (sv.scen.num_gridpoints - 1))
        (dm_e_pointwise sv.m_sim_consts sv.m_mat_indices
          (source_value cm sv.scen.timestep_size n)
          (List.range sv.scen.num_gridpoints) g) := by
    rw [grid_step, h_phase, h_sweep_pointwise _ _ _ (List.nodup_range' _ _), dm_e_phase,
      dm_e_sweep_pointwise _ _ _ _ (List.nodup_range _)]
  rw [hgs]
  have h0 : (0 : Nat) ∉ List.range' 1 (sv.scen.num_gridpoints - 1) := by
    rw [List.mem_range'_1]
    omega
  have hN : sv.scen.num_gridpoints ∉ List.range' 1 (sv.scen.num_gridpoints - 1) := by
    rw [List.mem_range'_1]
    omega
  simp only [h_pointwise, h0, hN, if_false, dm_e_pointwise, and_self]

/-- Any number of time steps leaves the two boundary cells of `h` as they
were. -/
theorem grid_steps_h_boundary (cm : cmath) (sv : solver) (k : Nat) (g : grid) :
    (grid_steps cm sv k g).h 0 = g.h 0 ∧
    (grid_steps cm sv k g).h sv.scen.num_gridpoints = g.h sv.scen.num_gridpoints := by
  induction k with
  | zero => exact ⟨rfl, rfl⟩
  | succ k ih =>
    obtain ⟨h1, h2⟩ := grid_step_h_boundary cm sv k (grid_steps cm sv k g)
    exact ⟨h1.trans ih.1, h2.trans ih.2⟩


/-- What a successful construction went through. -/
theorem construct_ok (env : environment) (dev : device) (scen : scenario) (sv : solver)
    (h : construct env dev scen = .ok sv) :
    ∃ scen1 ist rst,
      setup_settings env.pc env.cm dev scen = .ok scen1 ∧
      setup_indices dev scen1
        (setup_sim_consts env.pc env.cm env.lib env.sc0 scen1.timestep_size
          scen1.gridpoint_size dev) ⟨env.mem_indices, env.mem_grid⟩ = .ok ist ∧
      setup_records env.new_result scen1.records = .ok rst ∧
      sv.scen = scen1 ∧ sv.g = ist.g ∧ sv.m_mat_indices = ist.m_mat_indices ∧
      sv.m_sim_consts = (setup_sim_consts env.pc env.cm env.lib env.sc0
        scen1.timestep_size scen1.gridpoint_size dev).m_sim_consts ∧
      sv.m_copy_list = (setup_offsets rst.m_copy_list).1 ∧
      sv.scratch_size = rst.scratch_size := by
  unfold construct at h
  split at h
  · cases h
  · split at h
    · cases h
    · obtain ⟨scen1, hs, h⟩ := (and_then_eq_ok _ _ _).mp h
      obtain ⟨ist, hi, h⟩ := (and_then_eq_ok _ _ _).mp h
      obtain ⟨rst, hr, h⟩ := (and_then_eq_ok _ _ _).mp h
      cases h
      exact ⟨scen1, ist, rst, hs, hi, hr, rfl, rfl, rfl, rfl, rfl, rfl⟩

/-- Every grid index of the concrete scenario lies in a region of `dev_one`. -/
theorem first_region_three (i : Nat) (hi : i ∈ List.range scen_three_set.num_gridpoints) :
    first_region dev_one.regions ((i : ℚ) * scen_three_set.gridpoint_size) ≠ none := by
  have h3 : i < 3 := by simpa [scen_three_set, scen_three] using hi
  have hcases : i = 0 ∨ i = 1 ∨ i = 2 := by omega
  rcases hcases with rfl | rfl | rfl
  · simp [first_region, dev_one, in_region, scen_three_set, List.find?]
  · simp [first_region, dev_one, in_region, scen_three_set, List.find?]
  · simp [first_region, dev_one, in_region, scen_three_set, List.find?]

/-- The constructor succeeds on the device `dev_one` and the scenario
`scen_three`. -/
theorem construct_three_ok : ∃ sv, construct env_unit dev_one scen_three = .ok sv := by
  have hidx : ∀ key, (setup_sim_consts pc_unit cm_unit lib_unit sim_constants_zero
      scen_three_set.timestep_size scen_three_set.gridpoint_size dev_one).id_to_idx key <
      2 ^ 31 := fun key =>
    Nat.lt_trans
      (id_to_idx_lt_used pc_unit cm_unit lib_unit sim_constants_zero _ _ dev_one
        (by simp [dev_one]) key)
      (by simp [dev_one])
  rcases index_loop_spec dev_one scen_three_set _ hidx
      (List.range scen_three_set.num_gridpoints) ⟨env_unit.mem_indices, env_unit.mem_grid⟩ with
    ⟨⟨i, hi, hn⟩, _⟩ | ⟨_, ist, hok, _, _⟩
  · exact absurd hn (first_region_three i hi)
  · have hok' : setup_indices dev_one scen_three_set
        (setup_sim_consts pc_unit cm_unit lib_unit sim_constants_zero
          scen_three_set.timestep_size scen_three_set.gridpoint_size dev_one)
        ⟨env_unit.mem_indices, env_unit.mem_grid⟩ = .ok ist :=
      (setup_indices_eq_ok _ _ _ _ _).mpr hok
    have hrec : setup_records env_unit.new_result scen_three_set.records = .ok ⟨[], 0, []⟩ :=
      rfl
    have hlen : ¬ dev_one.regions.length = 0 := by simp [dev_one]
    have hreg : dev_one.regions[2]? = some ⟨"r2", 2, 2, dielectric "A"⟩ := by
      simp [dev_one]
    have hset : setup_settings env_unit.pc env_unit.cm dev_one scen_three =
        .ok scen_three_set := setup_settings_three
    have hcon : construct env_unit dev_one scen_three =
        .ok
          { scen := scen_three_set,
            m_sim_consts := (setup_sim_consts pc_unit cm_unit lib_unit sim_constants_zero
              scen_three_set.timestep_size scen_three_set.gridpoint_size
              dev_one).m_sim_consts,
            m_mat_indices := ist.m_mat_indices,
            g := ist.g,
            m_results := [],
            m_copy_list := (setup_offsets []).1,
            scratch_size := 0,
            m_result_scratch := env_unit.mem_scratch } := by
      unfold construct
      rw [if_neg hlen, hreg]
      simp only [hset, and_then_ok]
      rw [show env_unit.pc = pc_unit from rfl, show env_unit.cm = cm_unit from rfl,
        show env_unit.lib = lib_unit from rfl,
        show env_unit.sc0 = sim_constants_zero from rfl,
        hok', and_then_ok, hrec, and_then_ok]
    exact ⟨_, hcon⟩

/-- C10: on a grid of `N >= 1` points (the constructor accepts no other),
`H[0] = 0` and `H[N] = 0` hold after construction and after every number of
time steps of `run()`; each time step leaves the two cells as it found them,
whatever the state. -/
theorem C10_h_boundary_zero (env : environment) (dev : device) (scen : scenario)
    (sv : solver) (hc : construct env dev scen = .ok sv) :
    1 ≤ sv.scen.num_gridpoints ∧
    sv.g.h 0 = 0 ∧ sv.g.h sv.scen.num_gridpoints = 0 ∧
    (∀ (cm : cmath) (k : Nat),
      (grid_steps cm sv k sv.g).h 0 = 0 ∧
      (grid_steps cm sv k sv.g).h sv.scen.num_gridpoints = 0) ∧
    (∀ (cm : cmath) (k : Nat) (st : run_state),
      time_loop cm sv k ⟨sv.g, sv.m_result_scratch⟩ = .ok st →
      st.g.h 0 = 0 ∧ st.g.h sv.scen.num_gridpoints = 0) ∧
    (∀ (cm : cmath) (n : Nat) (g : grid),
      (grid_step cm sv n g).h 0 = g.h 0 ∧
      (grid_step cm sv n g).h sv.scen.num_gridpoints = g.h sv.scen.num_gridpoints) := by
  obtain ⟨scen1, ist, rst, hs, hi, _, hscen, hg, _, _, _, _⟩ :=
    construct_ok env dev scen sv hc
  obtain ⟨hN, hN1, _, _⟩ := setup_settings_ok _ _ _ _ _ hs
  have hpos : 1 ≤ sv.scen.num_gridpoints := by
    rw [hscen, hN1]
    exact hN
  obtain ⟨hall, hlast, _⟩ := index_loop_h dev scen1 _ _ _ ist
    ((setup_indices_eq_ok _ _ _ _ _).mp hi)
  have h0 : sv.g.h 0 = 0 := by
    rw [hg]
    apply hall
    rw [List.mem_range, hN1]
    exact hN
  have hNz : sv.g.h sv.scen.num_gridpoints = 0 := by
    rw [hg, hscen]
    have hmem : scen1.num_gridpoints - 1 ∈ List.range scen1.num_gridpoints := by
      rw [List.mem_range]
      omega
    have := hlast hmem
    have he : scen1.num_gridpoints - 1 + 1 = scen1.num_gridpoints := by omega
    rw [he] at this
    exact this
  refine ⟨hpos, h0, hNz, ?_, ?_, ?_⟩
  · intro cm k
    obtain ⟨h1, h2⟩ := grid_steps_h_boundary cm sv k sv.g
    exact ⟨h1.trans h0, h2.trans hNz⟩
  · intro cm k st hst
    have hgs := time_loop_grid cm sv k _ st hst
    obtain ⟨h1, h2⟩ := grid_steps_h_boundary cm sv k sv.g
    rw [hgs]
    exact ⟨h1.trans h0, h2.trans hNz⟩
  · intro cm n g
    exact grid_step_h_boundary cm sv n g

/-- C10 at a concrete input: the constructor succeeds on the device
`dev_one` and the scenario `scen_three`, and the solver it returns satisfies
the statement. -/
theorem C10_h_boundary_zero_witness :
    ∃ sv, construct env_unit dev_one scen_three = .ok sv ∧
      1 ≤ sv.scen.num_gridpoints ∧
      sv.g.h 0 = 0 ∧ sv.g.h sv.scen.num_gridpoints = 0 ∧
      (∀ (cm : cmath) (k : Nat),
        (grid_steps cm sv k sv.g).h 0 = 0 ∧
        (grid_steps cm sv k sv.g).h sv.scen.num_gridpoints = 0) ∧
      (∀ (cm : cmath) (k : Nat) (st : run_state),
        time_loop cm sv k ⟨sv.g, sv.m_result_scratch⟩ = .ok st →
        st.g.h 0 = 0 ∧ st.g.h sv.scen.num_gridpoints = 0) ∧
      (∀ (cm : cmath) (n : Nat) (g : grid),
        (grid_step cm sv n g).h 0 = g.h 0 ∧
        (grid_step cm sv n g).h sv.scen.num_gridpoints = g.h sv.scen.num_gridpoints) :=
  construct_three_ok.elim fun sv h =>
    ⟨sv, h, C10_h_boundary_zero env_unit dev_one scen_three sv h⟩

/-! ## Conductivity, trace and relaxation in the four iterations -/

/-- The four iterations do not read `sigma`. -/
theorem pc_result_same_but_sigma (a b : sim_constants_2lvl) (h : same_but_sigma a b)
    (g : grid) (src : ℚ) (i : Nat) : pc_result a g src i = pc_result b g src i := by
  obtain ⟨h1, _, h3, h4, h5, h6, h7, h8, h9, _, _⟩ := h
  simp only [pc_result, pc_iteration, h1, h3, h4, h5, h6, h7, h8, h9]

/-- Replacing `sigma` in every constant set of the vector gives, at every
index, a set that differs at most in `sigma`. -/
theorem sim_consts_at_map_sigma (consts : List sim_constants_2lvl)
    (s : sim_constants_2lvl → ℚ) (k : Nat) :
    same_but_sigma
      (sim_consts_at (consts.map (fun c => { c with sigma := s c })) k)
      (sim_consts_at consts k) := by
  simp only [sim_consts_at, List.getD_eq_getElem?_getD, List.getElem?_map]
  cases consts[k]? with
  | none => simp [same_but_sigma]
  | some c => simp [same_but_sigma]

/-- C13 (as the code behaves): the field written by the quantum+E phase does
not depend on `sigma`.  The four iterations at an index return the same
locals for two constant sets that differ only in `sigma` (the current density
is the constant `j = 0`), so for every grid state the whole phase writes the
same arrays, `E[i]` at interior indices included, whatever `sigma` is put in
each constant set. -/
theorem C13_e_update_ignores_sigma (consts : List sim_constants_2lvl)
    (s : sim_constants_2lvl → ℚ) (mat_indices : Nat → Nat) (N : Nat) (src : ℚ)
    (g : grid) :
    (∀ (sc : sim_constants_2lvl) (sigma1 sigma2 : ℚ) (i : Nat),
      (pc_result { sc with sigma := sigma1 } g src i).field_e =
        (pc_result { sc with sigma := sigma2 } g src i).field_e) ∧
    dm_e_phase (consts.map (fun c => { c with sigma := s c })) mat_indices N src g =
      dm_e_phase consts mat_indices N src g := by
  constructor
  · intro sc s1 s2 i
    rw [pc_result_same_but_sigma { sc with sigma := s1 } { sc with sigma := s2 }
      (by simp [same_but_sigma])]
  · rw [dm_e_phase, dm_e_phase, dm_e_sweep_pointwise _ _ _ _ (List.nodup_range _),
      dm_e_sweep_pointwise _ _ _ _ (List.nodup_range _)]
    simp only [dm_e_pointwise,
      fun i => pc_result_same_but_sigma _ _ (sim_consts_at_map_sigma consts s (mat_indices i))
        g src i]

/-- Every prediction-correction iteration returns estimates with the trace
of the arrays: `rho11_e + rho22_e = dm11[i] + dm22[i]`. -/
theorem pc_iteration_trace (sc : sim_constants_2lvl) (g : grid) (src : ℚ) (i : Nat)
    (v : pc_vars) :
    (pc_iteration sc g src i v).rho11_e + (pc_iteration sc g src i v).rho22_e =
      g.dm11 i + g.dm22 i := by
  simp only [pc_iteration]
  ring

/-- One time step leaves `dm11[i] + dm22[i]` unchanged at every index. -/
theorem grid_step_trace (cm : cmath) (sv : solver) (n : Nat) (g : grid) (i : Nat) :
    (grid_step cm sv n g).dm11 i + (grid_step cm sv n g).dm22 i = g.dm11 i + g.dm22 i := by
  have hgs : grid_step cm sv n g =
      h_pointwise sv.m_sim_consts sv.m_mat_indices
        (List.range' 1 (sv.scen.num_gridpoints - 1))
        (dm_e_pointwise sv.m_sim_consts sv.m_mat_indices
          (source_value cm sv.scen.timestep_size n)
          (List.range sv.scen.num_gridpoints) g) := by
    rw [grid_step, h_phase, h_sweep_pointwise _ _ _ (List.nodup_range' _ _), dm_e_phase,
      dm_e_sweep_pointwise _ _ _ _ (List.nodup_range _)]
  rw [hgs]
  simp only [h_pointwise, dm_e_pointwise]
  by_cases hi : i ∈ List.range sv.scen.num_gridpoints
  · simp only [hi, if_true, pc_result]
    exact pc_iteration_trace _ _ _ _ _
  · simp only [hi, if_false]

/-- Any number of time steps leaves `dm11[i] + dm22[i]` unchanged. -/
theorem grid_steps_trace (cm : cmath) (sv : solver) (k : Nat) (g : grid) (i : Nat) :
    (grid_steps cm sv k g).dm11 i + (grid_steps cm sv k g).dm22 i =
      g.dm11 i + g.dm22 i := by
  induction k with
  | zero => rfl
  | succ k ih =>
    show (grid_step cm sv k (grid_steps cm sv k g)).dm11 i +
      (grid_step cm sv k (grid_steps cm sv k g)).dm22 i = _
    rw [grid_step_trace, ih]
/-- The body of the loop over the grid indices initialises the density matrix
at `i` from the constant set of the material index it stores at `i`, and
leaves the other cells of `dm11`, `dm22` and `m_mat_indices` alone. -/
theorem index_step_init (dev : device) (scen : scenario) (cs : consts_state)
    (st st1 : index_state) (i : Nat) (h : index_step dev scen cs st i = .ok st1) :
    st1.g.dm11 i = (sim_consts_at cs.m_sim_consts (st1.m_mat_indices i)).dm11_init ∧
    st1.g.dm22 i = (sim_consts_at cs.m_sim_consts (st1.m_mat_indices i)).dm22_init ∧
    ∀ k, k ≠ i → st1.g.dm11 k = st.g.dm11 k ∧ st1.g.dm22 k = st.g.dm22 k ∧
      st1.m_mat_indices k = st.m_mat_indices k := by
  unfold index_step at h
  simp only at h
  split at h
  · cases h
  · cases h
    refine ⟨by simp, by simp, ?_⟩
    intro k hk
    simp [Function.update_noteq hk]

/-- After the loop over grid indices without repetition, the density matrix
at every listed index holds the initial values of the constant set of the
material index stored there. -/
theorem index_loop_init (dev : device) (scen : scenario) (cs : consts_state)
    (l : List Nat) (hnd : l.Nodup) (st st1 : index_state)
    (h : index_loop dev scen cs l st = .ok st1) :
    (∀ i ∈ l,
      st1.g.dm11 i = (sim_consts_at cs.m_sim_consts (st1.m_mat_indices i)).dm11_init ∧
      st1.g.dm22 i = (sim_consts_at cs.m_sim_consts (st1.m_mat_indices i)).dm22_init) ∧
    (∀ k, k ∉ l → st1.g.dm11 k = st.g.dm11 k ∧ st1.g.dm22 k = st.g.dm22 k ∧
      st1.m_mat_indices k = st.m_mat_indices k) := by
  induction l generalizing st with
  | nil =>
    cases h
    simp
  | cons a t ih =>
    have hat : a ∉ t := (List.nodup_cons.mp hnd).1
    simp only [index_loop] at h
    split at h
    · cases h
    · rename_i st2 hstep
      obtain ⟨h1, h2, h3⟩ := index_step_init dev scen cs st st2 a hstep
      obtain ⟨i1, i2⟩ := ih (List.nodup_cons.mp hnd).2 st2 h
      refine ⟨?_, ?_⟩
      · intro i hi
        rcases List.mem_cons.mp hi with rfl | hi
        · obtain ⟨f1, f2, f3⟩ := i2 _ hat
          rw [f1, f2, f3]
          exact ⟨h1, h2⟩
        · exact i1 i hi
      · intro k hk
        have hka : k ≠ a := fun hc => hk (hc ▸ List.mem_cons_self _ _)
        have hkt : k ∉ t := fun hc => hk (List.mem_cons_of_mem _ hc)
        obtain ⟨f1, f2, f3⟩ := i2 k hkt
        obtain ⟨g1, g2, g3⟩ := h3 k hka
        exact ⟨f1.trans g1, f2.trans g2, f3.trans g3⟩

/-- C17: in exact arithmetic the quantum update conserves the trace of the
density matrix.  Every prediction-correction iteration returns estimates
with `rho11_e + rho22_e = dm11[i] + dm22[i]`, for every constant set and
field value; so `dm11[i] + dm22[i]` after a time step of `run()`, and after
any number of them, equals its value before; and in a solver built by the
constructor it stays at `dm11_init + dm22_init` of the constant set read at
grid index `i` for all time. -/
theorem C17_trace_conserved (cm : cmath) (sv : solver) :
    (∀ (sc : sim_constants_2lvl) (g : grid) (src : ℚ) (i : Nat) (v : pc_vars),
      (pc_iteration sc g src i v).rho11_e + (pc_iteration sc g src i v).rho22_e =
        g.dm11 i + g.dm22 i) ∧
    (∀ (n : Nat) (g : grid) (i : Nat),
      (grid_step cm sv n g).dm11 i + (grid_step cm sv n g).dm22 i =
        g.dm11 i + g.dm22 i) ∧
    (∀ (k : Nat) (g : grid) (i : Nat),
      (grid_steps cm sv k g).dm11 i + (grid_steps cm sv k g).dm22 i =
        g.dm11 i + g.dm22 i) ∧
    (∀ (env : environment) (dev : device) (scen : scenario),
      construct env dev scen = .ok sv →
      ∀ (k : Nat) (i : Nat), i < sv.scen.num_gridpoints →
        (grid_steps cm sv k sv.g).dm11 i + (grid_steps cm sv k sv.g).dm22 i =
          (sim_consts_at sv.m_sim_consts (sv.m_mat_indices i)).dm11_init +
          (sim_consts_at sv.m_sim_consts (sv.m_mat_indices i)).dm22_init) := by
  refine ⟨pc_iteration_trace, grid_step_trace cm sv, grid_steps_trace cm sv, ?_⟩
  intro env dev scen hc k i hi
  obtain ⟨scen1, ist, rst, _, hidx, _, hscen, hg, hmi, hsc, _, _⟩ :=
    construct_ok env dev scen sv hc
  obtain ⟨hinit, _⟩ := index_loop_init dev scen1 _ _ (List.nodup_range _) _ ist
    ((setup_indices_eq_ok _ _ _ _ _).mp hidx)
  have hi' : i ∈ List.range scen1.num_gridpoints := by
    rw [List.mem_range, ← hscen]
    exact hi
  obtain ⟨h1, h2⟩ := hinit i hi'
  rw [grid_steps_trace, hg, hmi, hsc, h1, h2]

/-- C17 at a concrete input: the solver built from the device `dev_one` and
the scenario `scen_three`. -/
theorem C17_trace_conserved_witness :
    ∃ sv, construct env_unit dev_one scen_three = .ok sv ∧
      ∀ (k : Nat) (i : Nat), i < sv.scen.num_gridpoints →
        (grid_steps cm_unit sv k sv.g).dm11 i + (grid_steps cm_unit sv k sv.g).dm22 i =
          (sim_consts_at sv.m_sim_consts (sv.m_mat_indices i)).dm11_init +
          (sim_consts_at sv.m_sim_consts (sv.m_mat_indices i)).dm22_init :=
  construct_three_ok.elim fun sv h =>
    ⟨sv, h, (C17_trace_conserved cm_unit sv).2.2.2 env_unit dev_one scen_three h⟩

/-- With `d12 = 0` the four iterations multiply `dm11[i]` by the factor
`1 - c + c^2/2 - c^3/4 + c^4/8`, `c = d_t * tau1`. -/
theorem pc_result_relax (sc : sim_constants_2lvl) (g : grid) (src : ℚ) (i : Nat)
    (hd : sc.d12 = 0) :
    (pc_result sc g src i).rho11_e = g.dm11 i * relax_factor (sc.d_t * sc.tau1) := by
  simp only [pc_result, pc_iteration, hd, relax_factor]
  ring

/-- For `0 <= c <= 1` the factor lies between zero and one. -/
theorem relax_factor_bounds (c : ℚ) (h0 : 0 ≤ c) (h1 : c ≤ 1) :
    0 ≤ relax_factor c ∧ relax_factor c ≤ 1 := by
  have e1 : relax_factor c = (1 - c) + c ^ 2 / 4 * (2 - c) + c ^ 4 / 8 := by
    simp only [relax_factor]
    ring
  have e2 : 1 - relax_factor c = c * (1 - c / 2) * (1 + c ^ 2 / 4) := by
    simp only [relax_factor]
    ring
  constructor
  · rw [e1]
    have a1 : 0 ≤ 1 - c := by linarith
    have a2 : 0 ≤ c ^ 2 / 4 * (2 - c) := mul_nonneg (by positivity) (by linarith)
    have a3 : 0 ≤ c ^ 4 / 8 := by positivity
    linarith
  · have : 0 ≤ c * (1 - c / 2) * (1 + c ^ 2 / 4) :=
      mul_nonneg (mul_nonneg h0 (by linarith)) (by positivity)
    linarith

/-- For `0 < c <= 1` the factor is below one. -/
theorem relax_factor_lt_one (c : ℚ) (h0 : 0 < c) (h1 : c ≤ 1) : relax_factor c < 1 := by
  have e2 : 1 - relax_factor c = c * (1 - c / 2) * (1 + c ^ 2 / 4) := by
    simp only [relax_factor]
    ring
  have : 0 < c * (1 - c / 2) * (1 + c ^ 2 / 4) :=
    mul_pos (mul_pos h0 (by linarith)) (by positivity)
  linarith

/-- For `0 <= c <= 1` the factor differs from `exp(-c)` by at most `c^3/2`. -/
theorem relax_factor_exp (c : ℚ) (h0 : 0 ≤ c) (h1 : c ≤ 1) :
    |((relax_factor c : ℚ) : ℝ) - Real.exp (-(c : ℝ))| ≤ (c : ℝ) ^ 3 / 2 := by
  have hc0 : (0 : ℝ) ≤ (c : ℝ) := by exact_mod_cast h0
  have hc1 : (c : ℝ) ≤ 1 := by exact_mod_cast h1
  have habs : |-(c : ℝ)| ≤ 1 := by
    rw [abs_neg, abs_of_nonneg hc0]
    exact hc1
  have hb := Real.exp_bound habs (n := 3) (by norm_num)
  have hsum : (∑ m in Finset.range 3, (-(c : ℝ)) ^ m / (m.factorial : ℝ)) =
      1 - (c : ℝ) + (c : ℝ) ^ 2 / 2 := by
    simp [Finset.sum_range_succ, Nat.factorial]
    ring
  rw [hsum, abs_neg, abs_of_nonneg hc0] at hb
  have hb' : |Real.exp (-(c : ℝ)) - (1 - (c : ℝ) + (c : ℝ) ^ 2 / 2)| ≤
      (c : ℝ) ^ 3 * (2 / 9) := by
    refine le_trans hb (le_of_eq ?_)
    norm_num [Nat.factorial]
  have hcast : ((relax_factor c : ℚ) : ℝ) =
      1 - (c : ℝ) + (c : ℝ) ^ 2 / 2 + (c : ℝ) ^ 3 * ((c : ℝ) / 8 - 1 / 4) := by
    simp only [relax_factor]
    push_cast
    ring
  have hc3 : 0 ≤ (c : ℝ) ^ 3 := by positivity
  have hb2 := abs_le.mp hb'
  rw [hcast, abs_le]
  constructor
  · nlinarith [hb2.1, hb2.2, mul_nonneg hc3 hc0]
  · nlinarith [hb2.1, hb2.2, mul_nonneg hc3 hc0]
/-- One time step multiplies `dm11[i]` by the relaxation factor at a grid
index whose constant set has `d12 = 0`. -/
theorem grid_step_relax (cm : cmath) (sv : solver) (n : Nat) (g : grid) (i : Nat)
    (hi : i < sv.scen.num_gridpoints)
    (hd : (sim_consts_at sv.m_sim_consts (sv.m_mat_indices i)).d12 = 0) :
    (grid_step cm sv n g).dm11 i =
      g.dm11 i * relax_factor
        ((sim_consts_at sv.m_sim_consts (sv.m_mat_indices i)).d_t *
          (sim_consts_at sv.m_sim_consts (sv.m_mat_indices i)).tau1) := by
  have hgs : grid_step cm sv n g =
      h_pointwise sv.m_sim_consts sv.m_mat_indices
        (List.range' 1 (sv.scen.num_gridpoints - 1))
        (dm_e_pointwise sv.m_sim_consts sv.m_mat_indices
          (source_value cm sv.scen.timestep_size n)
          (List.range sv.scen.num_gridpoints) g) := by
    rw [grid_step, h_phase, h_sweep_pointwise _ _ _ (List.nodup_range' _ _), dm_e_phase,
      dm_e_sweep_pointwise _ _ _ _ (List.nodup_range _)]
  have hi' : i ∈ List.range sv.scen.num_gridpoints := List.mem_range.mpr hi
  rw [hgs]
  simp only [h_pointwise, dm_e_pointwise, hi', if_true]
  exact pc_result_relax _ g _ i hd

/-- C14: with the interaction switched off at grid index `i` (`d12 = 0` in
the constant set read there, so the Rabi frequency is zero in every
iteration), in exact arithmetic one time step maps `dm11[i]` to
`dm11[i] * (1 - c + c^2/2 - c^3/4 + c^4/8)` with `c = d_t * tau1`, and `k`
steps to `dm11[i]` times the `k`-th power of that factor.  For `0 <= c <= 1`
the factor lies in `[0, 1]` (below one when `c > 0`), so from `dm11[i] >= 0`
the population satisfies `0 <= dm11'[i] <= dm11[i]` at every step.  The
factor is `1 - c + c^2/2` plus a multiple of `c^3`, and differs from
`exp(-c)` by at most `c^3/2`. -/
theorem C14_relaxation (cm : cmath) (sv : solver) (i : Nat)
    (hi : i < sv.scen.num_gridpoints)
    (hd : (sim_consts_at sv.m_sim_consts (sv.m_mat_indices i)).d12 = 0) :
    let c := (sim_consts_at sv.m_sim_consts (sv.m_mat_indices i)).d_t *
      (sim_consts_at sv.m_sim_consts (sv.m_mat_indices i)).tau1
    (∀ (n : Nat) (g : grid), (grid_step cm sv n g).dm11 i = g.dm11 i * relax_factor c) ∧
    (∀ (k : Nat) (g : grid),
      (grid_steps cm sv k g).dm11 i = g.dm11 i * relax_factor c ^ k) ∧
    relax_factor c = 1 - c + c ^ 2 / 2 - c ^ 3 / 4 + c ^ 4 / 8 ∧
    relax_factor c = (1 - c + c ^ 2 / 2) + c ^ 3 * (c / 8 - 1 / 4) ∧
    (0 ≤ c → c ≤ 1 →
      0 ≤ relax_factor c ∧ relax_factor c ≤ 1 ∧ (0 < c → relax_factor c < 1) ∧
      (∀ (n : Nat) (g : grid), 0 ≤ g.dm11 i →
        0 ≤ (grid_step cm sv n g).dm11 i ∧ (grid_step cm sv n g).dm11 i ≤ g.dm11 i) ∧
      (∀ (k : Nat) (g : grid), 0 ≤ g.dm11 i →
        0 ≤ (grid_steps cm sv (k + 1) g).dm11 i ∧
        (grid_steps cm sv (k + 1) g).dm11 i ≤ (grid_steps cm sv k g).dm11 i) ∧
      |((relax_factor c : ℚ) : ℝ) - Real.exp (-(c : ℝ))| ≤ (c : ℝ) ^ 3 / 2) := by
  intro c
  have hstep : ∀ (n : Nat) (g : grid),
      (grid_step cm sv n g).dm11 i = g.dm11 i * relax_factor c :=
    fun n g => grid_step_relax cm sv n g i hi hd
  have hsteps : ∀ (k : Nat) (g : grid),
      (grid_steps cm sv k g).dm11 i = g.dm11 i * relax_factor c ^ k := by
    intro k g
    induction k with
    | zero => simp [grid_steps]
    | succ k ih =>
      show (grid_step cm sv k (grid_steps cm sv k g)).dm11 i = _
      rw [hstep, ih, pow_succ]
      ring
  refine ⟨hstep, hsteps, rfl, ?_, ?_⟩
  · simp only [relax_factor]
    ring
  · intro h0 h1
    obtain ⟨b0, b1⟩ := relax_factor_bounds c h0 h1
    have hmono : ∀ x : ℚ, 0 ≤ x → 0 ≤ x * relax_factor c ∧ x * relax_factor c ≤ x := by
      intro x hx
      exact ⟨mul_nonneg hx b0, by nlinarith⟩
    refine ⟨b0, b1, fun hpos => relax_factor_lt_one c hpos h1, ?_, ?_,
      relax_factor_exp c h0 h1⟩
    · intro n g hg
      rw [hstep]
      exact hmono _ hg
    · intro k g hg
      have hk : 0 ≤ (grid_steps cm sv k g).dm11 i := by
        rw [hsteps]
        exact mul_nonneg hg (pow_nonneg b0 k)
      show 0 ≤ (grid_step cm sv k (grid_steps cm sv k g)).dm11 i ∧
        (grid_step cm sv k (grid_steps cm sv k g)).dm11 i ≤ _
      rw [hstep]
      exact hmono _ hk

/-- C14 at a concrete input: the solver `solver_relax` (`d12 = 0`,
`tau1 = 1/2`, `d_t = 1`, so `c = 1/2`) at grid index 1. -/
theorem C14_relaxation_witness :
    (1 : Nat) < solver_relax.scen.num_gridpoints ∧
    (sim_consts_at solver_relax.m_sim_consts (solver_relax.m_mat_indices 1)).d12 = 0 ∧
    (sim_consts_at solver_relax.m_sim_consts (solver_relax.m_mat_indices 1)).d_t *
      (sim_consts_at solver_relax.m_sim_consts (solver_relax.m_mat_indices 1)).tau1 =
        1 / 2 ∧
    (∀ (n : Nat) (g : grid),
      (grid_step cm_unit solver_relax n g).dm11 1 =
        g.dm11 1 * relax_factor
          ((sim_consts_at solver_relax.m_sim_consts (solver_relax.m_mat_indices 1)).d_t *
            (sim_consts_at solver_relax.m_sim_consts
              (solver_relax.m_mat_indices 1)).tau1)) :=
  ⟨by simp [solver_relax, solver_two],
   by simp [solver_relax, solver_two, sim_consts_at],
   by simp [solver_relax, solver_two, sim_consts_at],
   (C14_relaxation cm_unit solver_relax 1 (by simp [solver_relax, solver_two])
      (by simp [solver_relax, solver_two, sim_consts_at])).1⟩

/-! ## The guards of the constructor -/

/-- C11: constructing the solver for a device whose region list is empty
throws `invalid_argument("No regions in device!")`, whatever the scenario and
the rest of the device are, and the check comes before every other step of
the constructor body: the scenario object is as it was (no setter ran) and no
array was allocated. -/
theorem C11_empty_regions_throw_first (env : environment) (dev : device)
    (scen : scenario) (h : dev.regions = []) :
    construct env dev scen = .error (.invalid_argument "No regions in device!") ∧
    construct_effects env dev scen = ⟨scen, []⟩ := by
  constructor
  · simp [construct, h]
  · simp [construct_effects, h]

/-- C11 at a concrete input: the device `dev_empty` and the scenario
`scen_three`. -/
theorem C11_empty_regions_throw_first_witness :
    dev_empty.regions = [] ∧
    construct env_unit dev_empty scen_three =
      .error (.invalid_argument "No regions in device!") ∧
    construct_effects env_unit dev_empty scen_three = ⟨scen_three, []⟩ :=
  ⟨rfl, C11_empty_regions_throw_first env_unit dev_empty scen_three rfl⟩

/-- The effects of a construction that succeeds: the scenario of the solver,
the seven data arrays and the scratch buffer. -/
theorem construct_effects_ok (env : environment) (dev : device) (scen : scenario)
    (sv : solver) (h : construct env dev scen = .ok sv) :
    (construct_effects env dev scen).scen = sv.scen ∧
    (construct_effects env dev scen).allocated =
      [sv.scen.num_gridpoints, sv.scen.num_gridpoints, sv.scen.num_gridpoints,
        sv.scen.num_gridpoints, sv.scen.num_gridpoints + 1, sv.scen.num_gridpoints,
        sv.scen.num_gridpoints, sv.scratch_size] := by
  obtain ⟨scen1, ist, rst, hs, hi, hr, hscen, _, _, _, _, hsz⟩ :=
    construct_ok env dev scen sv h
  have hlen : ¬ dev.regions.length = 0 := by
    intro hc
    simp [construct, hc] at h
  have hreg : ∃ r, dev.regions[2]? = some r := by
    cases hr2 : dev.regions[2]? with
    | none => simp [construct, hlen, hr2] at h
    | some r => exact ⟨r, rfl⟩
  obtain ⟨r, hr2⟩ := hreg
  simp only [construct_effects, if_neg hlen, hr2, hs, hi, hr, hscen, hsz]
  simp

/-- C15 (as the code behaves): for a device with one or two regions the
constructor reads `get_regions()[2]`, an element beyond the end of the region
list, right after the check for an empty list; the model stops there. -/
theorem C15_third_region_read_unchecked (env : environment) (dev : device)
    (scen : scenario) (h1 : 1 ≤ dev.regions.length) (h2 : dev.regions.length ≤ 2) :
    dev.regions[2]? = none ∧
    construct env dev scen =
      .error (.undefined "get_regions()[2] beyond the end of the vector") := by
  have hnone : dev.regions[2]? = none := by
    rw [List.getElem?_eq_none_iff]
    omega
  have hlen : ¬ dev.regions.length = 0 := by omega
  exact ⟨hnone, by simp [construct, hlen, hnone]⟩

/-- C15 at a concrete input: the device `dev_single`, with one region. -/
theorem C15_third_region_read_unchecked_witness :
    1 ≤ dev_single.regions.length ∧ dev_single.regions.length ≤ 2 ∧
    dev_single.regions[2]? = none ∧
    construct env_unit dev_single scen_three =
      .error (.undefined "get_regions()[2] beyond the end of the vector") :=
  ⟨by simp [dev_single], by simp [dev_single],
   C15_third_region_read_unchecked env_unit dev_single scen_three
     (by simp [dev_single]) (by simp [dev_single])⟩

/-- C16, evaluated at a failing input: the scenario `scen_one_point` has one
grid point and passes the check `num_gridpoints > 0`, the divisor `n_x - 1`
is zero, and the settings block divides the device length by it.  Among the
grid sizes that pass the check, one is the only one with a zero divisor. -/
theorem C16_divisor_zero_at_one_point :
    0 < scen_one_point.num_gridpoints ∧
    grid_divisor scen_one_point.num_gridpoints = 0 ∧
    setup_settings pc_unit cm_unit dev_one scen_one_point =
      .error (.undefined "division by zero") ∧
    (∀ n_x : Nat, 0 < n_x → n_x < 2 ^ 32 → (grid_divisor n_x = 0 ↔ n_x = 1)) := by
  refine ⟨by simp [scen_one_point], by simp [scen_one_point, grid_divisor], ?_, ?_⟩
  · have h0 : 0 < scen_one_point.num_gridpoints := by simp [scen_one_point]
    have h1 : fdiv 1 (cm_unit.sqrt
        (pc_unit.MU0 * pc_unit.EPS0 * dev_one.minimum_permittivity)) = .ok 1 := by
      simp [fdiv, cm_unit, pc_unit, dev_one]
    have h2 : fdiv dev_one.length ((grid_divisor scen_one_point.num_gridpoints : Nat) : ℚ) =
        .error (.undefined "division by zero") := by
      simp [fdiv, grid_divisor, scen_one_point]
    simp only [setup_settings, h0, if_true, h1, and_then_ok, h2, and_then]
  · intro n_x hpos hlt
    simp only [grid_divisor]
    omega

/-! ## The time-step setup -/

/-- What the settings block computed when it succeeds: the speed of light,
the grid spacing it stored, and from the Courant step the number of time
steps and the re-adjusted step it stored. -/
theorem setup_settings_steps (pc : phys_consts) (cm : cmath) (dev : device)
    (scen scen1 : scenario) (h : setup_settings pc cm dev scen = .ok scen1) :
    ∃ velocity,
      fdiv 1 (cm.sqrt (pc.MU0 * pc.EPS0 * dev.minimum_permittivity)) = .ok velocity ∧
      fdiv dev.length (grid_divisor scen.num_gridpoints) = .ok scen1.gridpoint_size ∧
      velocity ≠ 0 ∧ courant_step scen1.gridpoint_size velocity ≠ 0 ∧
      to_unsigned (timestep_count scen.endtime
        (courant_step scen1.gridpoint_size velocity)) = .ok scen1.num_timesteps ∧
      fdiv scen.endtime (step_divisor scen1.num_timesteps) = .ok scen1.timestep_size := by
  unfold setup_settings at h
  by_cases hN : 0 < scen.num_gridpoints
  · rw [if_pos hN] at h
    obtain ⟨velocity, hv, h⟩ := (and_then_eq_ok _ _ _).mp h
    obtain ⟨d_x, hx, h⟩ := (and_then_eq_ok _ _ _).mp h
    obtain ⟨d_t0, h0, h⟩ := (and_then_eq_ok _ _ _).mp h
    obtain ⟨q, hq, h⟩ := (and_then_eq_ok _ _ _).mp h
    obtain ⟨n_t, hn, h⟩ := (and_then_eq_ok _ _ _).mp h
    obtain ⟨d_t, ht, h⟩ := (and_then_eq_ok _ _ _).mp h
    cases h
    have hvne : velocity ≠ 0 := by
      intro hc
      simp [fdiv, hc] at h0
    have hd0 : d_t0 = courant_step d_x velocity := by
      simp only [fdiv, hvne, if_false] at h0
      cases h0
      rfl
    have hd0ne : d_t0 ≠ 0 := by
      intro hc
      simp [fdiv, hc] at hq
    have hqv : q = scen.endtime / d_t0 := by
      simp only [fdiv, hd0ne, if_false] at hq
      cases hq
      rfl
    refine ⟨velocity, hv, hx, hvne, ?_, ?_, ht⟩
    · rw [← hd0]
      exact hd0ne
    · simp only [timestep_count, ← hd0, ← hqv]
      exact hn
  · rw [if_neg hN] at h
    cases h

/-- The count `ceil(T/d_t0) + 1` and the re-adjusted step in exact
arithmetic, for a positive end time and a positive Courant step. -/
theorem timestep_count_spec (T d_t0 : ℚ) (hT : 0 < T) (hd : 0 < d_t0) :
    2 ≤ timestep_count T d_t0 ∧
    0 < readjusted_step T (timestep_count T d_t0) ∧
    readjusted_step T (timestep_count T d_t0) ≤ d_t0 ∧
    ((timestep_count T d_t0 - 1 : Int) : ℚ) * readjusted_step T (timestep_count T d_t0) =
      T := by
  have hq : 0 < T / d_t0 := div_pos hT hd
  have hc : 0 < Int.ceil (T / d_t0) := Int.ceil_pos.mpr hq
  have hcq : (0 : ℚ) < ((Int.ceil (T / d_t0) : Int) : ℚ) := by exact_mod_cast hc
  have hle : T / d_t0 ≤ ((Int.ceil (T / d_t0) : Int) : ℚ) := Int.le_ceil _
  have hsub : timestep_count T d_t0 - 1 = Int.ceil (T / d_t0) := by
    simp [timestep_count]
  refine ⟨?_, ?_, ?_, ?_⟩
  · simp only [timestep_count]
    omega
  · simp only [readjusted_step, hsub]
    exact div_pos hT hcq
  · simp only [readjusted_step, hsub]
    rw [div_le_iff₀ hcq]
    have := (div_le_iff₀ hd).mp hle
    linarith
  · simp only [readjusted_step, hsub]
    field_simp

/-- A conversion to `unsigned int` that succeeds had its argument in range
and returns it. -/
theorem to_unsigned_ok (v : Int) (n : Nat) (h : to_unsigned v = .ok n) :
    0 ≤ v ∧ v < 2 ^ 32 ∧ n = v.toNat := by
  unfold to_unsigned at h
  split at h
  · rename_i hr
    cases h
    exact ⟨hr.1, hr.2, rfl⟩
  · cases h

/-- For a count between one and `2^32` the divisor `n_t - 1` does not wrap. -/
theorem step_divisor_of (n : Nat) (h1 : 1 ≤ n) (h2 : n < 2 ^ 32) :
    step_divisor n = n - 1 := by
  simp only [step_divisor]
  omega

/-- C18: in the constructor's time-step setup, for every end time `T > 0` and
every positive Courant-limited step `d_t0 = C*d_x/velocity`, in exact
arithmetic the number of time steps `n_t = ceil(T/d_t0) + 1` is at least 2
and the re-adjusted step `d_t = T/(n_t - 1)` satisfies `0 < d_t <= d_t0` and
`(n_t - 1) * d_t = T`.  These are the values the settings block stores:
when the count fits in `unsigned int` the conversion and the division of the
block return them, and whenever the block succeeds on a scenario with end
time `T` and Courant step `d_t0`, `num_timesteps` and `timestep_size` are
`n_t` and `d_t`. -/
theorem C18_timestep_readjust (T d_t0 : ℚ) (hT : 0 < T) (hd : 0 < d_t0) :
    2 ≤ timestep_count T d_t0 ∧
    0 < readjusted_step T (timestep_count T d_t0) ∧
    readjusted_step T (timestep_count T d_t0) ≤ d_t0 ∧
    ((timestep_count T d_t0 - 1 : Int) : ℚ) * readjusted_step T (timestep_count T d_t0) =
      T ∧
    (timestep_count T d_t0 < 2 ^ 32 →
      to_unsigned (Int.ceil (T / d_t0) + 1) = .ok (timestep_count T d_t0).toNat ∧
      fdiv T (step_divisor (timestep_count T d_t0).toNat) =
        .ok (readjusted_step T (timestep_count T d_t0))) ∧
    (∀ (pc : phys_consts) (cm : cmath) (dev : device) (scen scen1 : scenario)
      (velocity : ℚ),
      setup_settings pc cm dev scen = .ok scen1 →
      scen.endtime = T →
      fdiv 1 (cm.sqrt (pc.MU0 * pc.EPS0 * dev.minimum_permittivity)) = .ok velocity →
      courant_step scen1.gridpoint_size velocity = d_t0 →
      (scen1.num_timesteps : Int) = timestep_count T d_t0 ∧
      scen1.timestep_size = readjusted_step T (timestep_count T d_t0)) := by
  obtain ⟨h2, hpos, hle, hmul⟩ := timestep_count_spec T d_t0 hT hd
  have hstore : ∀ n : Nat, to_unsigned (timestep_count T d_t0) = .ok n →
      (n : Int) = timestep_count T d_t0 ∧
      fdiv T (step_divisor n) = .ok (readjusted_step T (timestep_count T d_t0)) := by
    intro n hn
    obtain ⟨_, hlt, hnv⟩ := to_unsigned_ok _ _ hn
    have hcast : (n : Int) = timestep_count T d_t0 := by
      rw [hnv]
      exact Int.toNat_of_nonneg (by omega)
    have hn1 : 1 ≤ n := by omega
    have hn32 : n < 2 ^ 32 := by omega
    have hdiv : ((step_divisor n : Nat) : ℚ) = ((timestep_count T d_t0 - 1 : Int) : ℚ) := by
      rw [step_divisor_of n hn1 hn32, ← hcast]
      push_cast [Nat.cast_sub hn1]
      ring
    have hne : ((timestep_count T d_t0 - 1 : Int) : ℚ) ≠ 0 := by
      have : (0 : Int) < timestep_count T d_t0 - 1 := by omega
      exact_mod_cast this.ne'
    refine ⟨hcast, ?_⟩
    rw [hdiv]
    simp only [fdiv, hne, if_false, readjusted_step]
  refine ⟨h2, hpos, hle, hmul, ?_, ?_⟩
  · intro hfit
    have hconv : to_unsigned (timestep_count T d_t0) = .ok (timestep_count T d_t0).toNat := by
      have hrange : 0 ≤ timestep_count T d_t0 ∧ timestep_count T d_t0 < 2 ^ 32 :=
        ⟨by omega, hfit⟩
      simp only [to_unsigned, hrange, and_self, if_true]
    exact ⟨hconv, (hstore _ hconv).2⟩
  · intro pc cm dev scen scen1 velocity hs hend hv hcour
    obtain ⟨v, hv', _, _, _, hn, ht⟩ := setup_settings_steps pc cm dev scen scen1 hs
    have hvv : v = velocity := by
      rw [hv] at hv'
      cases hv'
      rfl
    subst hvv
    rw [hcour, hend] at hn
    obtain ⟨hcast, hdiv⟩ := hstore _ hn
    refine ⟨hcast, ?_⟩
    rw [hend, hdiv] at ht
    exact (Except.ok.inj ht).symm

/-- C18 at a concrete input: end time one and Courant step one half, the
values of the scenario `scen_three` on the device `dev_one`, give three time
steps of size one half. -/
theorem C18_timestep_readjust_witness :
    (0 : ℚ) < 1 ∧ (0 : ℚ) < 1 / 2 ∧
    2 ≤ timestep_count 1 (1 / 2) ∧
    0 < readjusted_step 1 (timestep_count 1 (1 / 2)) ∧
    readjusted_step 1 (timestep_count 1 (1 / 2)) ≤ 1 / 2 ∧
    ((timestep_count 1 (1 / 2) - 1 : Int) : ℚ) *
      readjusted_step 1 (timestep_count 1 (1 / 2)) = 1 :=
  have h := C18_timestep_readjust 1 (1 / 2) (by norm_num) (by norm_num)
  ⟨by norm_num, by norm_num, h.1, h.2.1, h.2.2.1, h.2.2.2.1⟩

/-! ## The bulk copy -/

/-- The copy loop, cell by cell. -/
theorem std_copy_apply (src : Nat → ℚ) (first size : Nat) (dst : Nat → ℚ) (k : Nat) :
    std_copy src first size dst k = if k < size then src (first + k) else dst k := by
  induction size with
  | zero => simp [std_copy]
  | succ n ih =>
    have hstep : std_copy src first (n + 1) dst =
        Function.update (std_copy src first n dst) n (src (first + n)) := by
      simp only [std_copy, List.range_succ, List.foldl_append, List.foldl_cons,
        List.foldl_nil]
    rw [hstep]
    by_cases hk : k = n
    · subst hk
      simp
    · rw [Function.update_noteq hk, ih]
      by_cases hlt : k < n
      · have : k < n + 1 := by omega
        simp [hlt, this]
      · have : ¬ k < n + 1 := by omega
        simp [hlt, this]

/-- The body of the bulk-copy loop succeeds on an entry whose pointers are
set, and copies as described when `get_scratch_real(0, 0)` is the start of
the entry's scratch range. -/
theorem bulk_copy_entry_spec (scratch : Nat → ℚ) (cle : copy_list_entry) (res : result)
    (hp : pointers_set cle) (hc : cle.m_record.cell 0 0 = 0) :
    ∃ r, bulk_copy_entry scratch cle res = .ok r ∧ copied scratch (cle, res) r := by
  obtain ⟨hre, _, him⟩ := hp
  obtain ⟨p, hpre⟩ := Option.isSome_iff_exists.mp hre
  cases hcx : cle.m_record.is_complex with
  | false =>
    refine ⟨⟨std_copy scratch (p + 0) cle.m_record.size res.re, res.im⟩, ?_, ?_⟩
    · simp [bulk_copy_entry, hpre, hcx, hc]
    · refine ⟨⟨p, hpre, ?_⟩, ?_, ?_⟩
      · intro k
        simp [std_copy_apply]
      · intro h
        rw [hcx] at h
        cases h
      · intro _
        rfl
  | true =>
    obtain ⟨him1, _⟩ := him hcx
    obtain ⟨q, hq⟩ := Option.isSome_iff_exists.mp him1
    refine ⟨⟨std_copy scratch (p + 0) cle.m_record.size res.re,
      std_copy scratch (q + 0) cle.m_record.size res.im⟩, ?_, ?_⟩
    · simp [bulk_copy_entry, hpre, hcx, hc, hq]
    · refine ⟨⟨p, hpre, ?_⟩, ?_, ?_⟩
      · intro k
        simp [std_copy_apply]
      · intro _
        refine ⟨q, hq, ?_⟩
        intro k
        simp [std_copy_apply]
      · intro h
        rw [hcx] at h
        cases h

/-- The bulk copy succeeds on entries whose pointers are set and treats each
entry as described, in order. -/
theorem bulk_copy_spec (scratch : Nat → ℚ) (entries : List (copy_list_entry × result))
    (h : ∀ p ∈ entries, pointers_set p.1 ∧ p.1.m_record.cell 0 0 = 0) :
    ∃ out, bulk_copy scratch entries = .ok out ∧
      List.Forall₂ (copied scratch) entries out := by
  induction entries with
  | nil => exact ⟨[], rfl, List.Forall₂.nil⟩
  | cons p rest ih =>
    obtain ⟨cle, res⟩ := p
    obtain ⟨hp, hc⟩ := h (cle, res) (List.mem_cons_self _ _)
    obtain ⟨r, hr, hcop⟩ := bulk_copy_entry_spec scratch cle res hp hc
    obtain ⟨out, hout, hall⟩ := ih (fun x hx => h x (List.mem_cons_of_mem _ hx))
    refine ⟨r :: out, ?_, List.Forall₂.cons hcop hall⟩
    simp only [bulk_copy, hr, hout]

/-- The body of the recording loop succeeds on an entry whose pointers are
set. -/
theorem record_cell_ok (cle : copy_list_entry) (hp : pointers_set cle) (n : Nat)
    (g : grid) (scratch : Nat → ℚ) (i : Nat) :
    ∃ s, record_cell cle n g scratch i = .ok s := by
  obtain ⟨hre, hsrc, him⟩ := hp
  obtain ⟨p, hpre⟩ := Option.isSome_iff_exists.mp hre
  obtain ⟨f, hf⟩ := Option.isSome_iff_exists.mp hsrc
  by_cases hw : cle.m_record.position < i ∧ i < cle.m_record.position + cle.m_record.cols
  · cases hcx : cle.m_record.is_complex with
    | false => exact ⟨_, by simp only [record_cell, hw, and_self, if_true, hpre, hf, hcx]; rfl⟩
    | true =>
      obtain ⟨h1, h2⟩ := him hcx
      obtain ⟨q, hq⟩ := Option.isSome_iff_exists.mp h1
      obtain ⟨fi, hfi⟩ := Option.isSome_iff_exists.mp h2
      exact ⟨_, by simp only [record_cell, hw, and_self, if_true, hpre, hf, hcx, hq, hfi]; rfl⟩
  · exact ⟨scratch, by simp only [record_cell, hw, if_false]⟩

/-- The recording loop of an entry whose pointers are set succeeds. -/
theorem record_cells_ok (cle : copy_list_entry) (hp : pointers_set cle) (n : Nat)
    (g : grid) (l : List Nat) (scratch : Nat → ℚ) :
    ∃ s, record_cells cle n g l scratch = .ok s := by
  induction l generalizing scratch with
  | nil => exact ⟨scratch, rfl⟩
  | cons i rest ih =>
    obtain ⟨s1, h1⟩ := record_cell_ok cle hp n g scratch i
    obtain ⟨s2, h2⟩ := ih s1
    exact ⟨s2, by simp only [record_cells, h1, h2]⟩

/-- The recording phase succeeds on a copy list whose pointers are set. -/
theorem record_phase_ok (N n : Nat) (g : grid) (cl : List copy_list_entry)
    (hp : ∀ cle ∈ cl, pointers_set cle) (scratch : Nat → ℚ) :
    ∃ s, record_phase N n g cl scratch = .ok s := by
  induction cl generalizing scratch with
  | nil => exact ⟨scratch, rfl⟩
  | cons cle rest ih =>
    have hentry : ∃ s1, record_entry N n g scratch cle = .ok s1 := by
      cases hh : cle.m_record.hasto_record n with
      | false => exact ⟨scratch, by simp only [record_entry, hh]; rfl⟩
      | true =>
        obtain ⟨s1, h1⟩ := record_cells_ok cle (hp cle (List.mem_cons_self _ _)) n g
          (List.range N) scratch
        exact ⟨s1, by simp only [record_entry, hh, if_true, h1]⟩
    obtain ⟨s1, h1⟩ := hentry
    obtain ⟨s2, h2⟩ := ih (fun x hx => hp x (List.mem_cons_of_mem _ hx)) s1
    exact ⟨s2, by simp only [record_phase, h1, h2]⟩

/-- The main loop of `run()` runs through any number of iterations when the
pointers of the copy list are set. -/
theorem time_loop_ok (cm : cmath) (sv : solver)
    (hp : ∀ cle ∈ sv.m_copy_list, pointers_set cle) (k : Nat) (st : run_state) :
    ∃ st1, time_loop cm sv k st = .ok st1 := by
  induction k with
  | zero => exact ⟨st, rfl⟩
  | succ k ih =>
    obtain ⟨st1, h1⟩ := ih
    obtain ⟨s, hs⟩ := record_phase_ok sv.scen.num_gridpoints k (grid_step cm sv k st1.g)
      sv.m_copy_list hp st1.m_result_scratch
    exact ⟨_, by simp only [time_loop, h1, time_step, hs]; rfl⟩

/-- C12: after the time loop of `run()`, when the pointers of the copy list
are set, every entry holds a result object, and `get_scratch_real(0, 0)`,
`get_scratch_imag(0, 0)` are the starts of an entry's scratch ranges: `run()`
returns, and for every copy-list entry the first `get_size()` cells of its
real result storage equal the first `get_size()` cells of its real scratch
range, likewise for the imaginary part when the entry is complex, while the
imaginary storage of an entry that is not complex is not written; the scratch
buffer after `run()` is the one the time loop left. -/
theorem C12_bulk_copy (cm : cmath) (sv : solver)
    (hp : ∀ cle ∈ sv.m_copy_list, pointers_set cle)
    (hc : ∀ cle ∈ sv.m_copy_list, cle.m_record.cell 0 0 = 0)
    (hlen : sv.m_results.length = sv.m_copy_list.length) :
    ∃ st out,
      time_loop cm sv sv.scen.num_timesteps ⟨sv.g, sv.m_result_scratch⟩ = .ok st ∧
      run cm sv = .ok ⟨st.g, st.m_result_scratch, out⟩ ∧
      out.length = sv.m_copy_list.length ∧
      List.Forall₂ (copied st.m_result_scratch) (sv.m_copy_list.zip sv.m_results) out := by
  obtain ⟨st, hst⟩ := time_loop_ok cm sv hp sv.scen.num_timesteps
    ⟨sv.g, sv.m_result_scratch⟩
  have hall : ∀ p ∈ sv.m_copy_list.zip sv.m_results,
      pointers_set p.1 ∧ p.1.m_record.cell 0 0 = 0 := by
    intro p hmem
    have h1 : p.1 ∈ sv.m_copy_list := (List.of_mem_zip hmem).1
    exact ⟨hp _ h1, hc _ h1⟩
  obtain ⟨out, hout, hcop⟩ := bulk_copy_spec st.m_result_scratch _ hall
  refine ⟨st, out, hst, ?_, ?_, hcop⟩
  · simp only [run, hst, and_then_ok, hout]
  · rw [← hcop.length_eq, List.length_zip, hlen, Nat.min_self]

/-- C12 at a concrete input: the solver `solver_rec`, whose copy list holds
the entry `entry_e_window` for the field `e`. -/
theorem C12_bulk_copy_witness :
    (∀ cle ∈ solver_rec.m_copy_list, pointers_set cle) ∧
    (∀ cle ∈ solver_rec.m_copy_list, cle.m_record.cell 0 0 = 0) ∧
    solver_rec.m_results.length = solver_rec.m_copy_list.length ∧
    ∃ st out,
      time_loop cm_unit solver_rec solver_rec.scen.num_timesteps
        ⟨solver_rec.g, solver_rec.m_result_scratch⟩ = .ok st ∧
      run cm_unit solver_rec = .ok ⟨st.g, st.m_result_scratch, out⟩ ∧
      out.length = solver_rec.m_copy_list.length ∧
      List.Forall₂ (copied st.m_result_scratch)
        (solver_rec.m_copy_list.zip solver_rec.m_results) out :=
  have hp : ∀ cle ∈ solver_rec.m_copy_list, pointers_set cle := by
    intro cle hmem
    have : cle = entry_e_window := by simpa [solver_rec] using hmem
    subst this
    simp [pointers_set, entry_e_window]
  have hc : ∀ cle ∈ solver_rec.m_copy_list, cle.m_record.cell 0 0 = 0 := by
    intro cle hmem
    have : cle = entry_e_window := by simpa [solver_rec] using hmem
    subst this
    simp [entry_e_window]
  ⟨hp, hc, rfl, C12_bulk_copy cm_unit solver_rec hp hc rfl⟩

/-! ## The throw inside the worksharing loop, at a concrete input -/

/-- The settings block on the device `dev_gap`: as for `dev_one`, which has
the same length and permittivity. -/
theorem setup_settings_gap :
    setup_settings pc_unit cm_unit dev_gap scen_three = .ok scen_three_set := by
  have h0 : (0 < scen_three.num_gridpoints) := by simp [scen_three]
  have h1 : fdiv 1 (cm_unit.sqrt
      (pc_unit.MU0 * pc_unit.EPS0 * dev_gap.minimum_permittivity)) = .ok 1 := by
    simp [fdiv, cm_unit, pc_unit, dev_gap, dev_one]
  have h2 : fdiv dev_gap.length ((grid_divisor scen_three.num_gridpoints : Nat) : ℚ) =
      .ok 1 := by
    simp [fdiv, grid_divisor, dev_gap, dev_one, scen_three]
  have h3 : fdiv ((1 / 2) * 1) 1 = .ok (1 / 2) := by
    simp [fdiv]
  have h4 : fdiv scen_three.endtime (1 / 2) = .ok 2 := by
    simp [fdiv, scen_three]
  have h5 : to_unsigned (Int.ceil (2 : ℚ) + 1) = .ok 3 := by
    simp [to_unsigned]
  have h6 : fdiv scen_three.endtime ((step_divisor 3 : Nat) : ℚ) = .ok (1 / 2) := by
    simp [fdiv, step_divisor, scen_three]
  simp only [setup_settings, h0, if_true, h1, h2, h3, h4, h5, h6, and_then_ok]
  simp [scen_three_set, scen_three]

/-- C7, evaluated at a failing input: the device `dev_gap` (three regions,
none of which contains the coordinate 2 of the last of three grid points) and
the scenario `scen_three`.  The material indices are below `2^31`, grid index
2 has no region, the loop ends the program instead of handing
`invalid_argument` to the caller, and so does the constructor. -/
theorem C7_region_not_found_ends_program_witness :
    (∀ key, (setup_sim_consts pc_unit cm_unit lib_unit sim_constants_zero
        scen_three_set.timestep_size scen_three_set.gridpoint_size
        dev_gap).id_to_idx key < 2 ^ 31) ∧
    (∃ i, i < scen_three_set.num_gridpoints ∧
      ∀ reg ∈ dev_gap.regions, ¬ (reg.start ≤ (i : ℚ) * scen_three_set.gridpoint_size ∧
        (i : ℚ) * scen_three_set.gridpoint_size ≤ reg.stop)) ∧
    setup_indices dev_gap scen_three_set
      (setup_sim_consts pc_unit cm_unit lib_unit sim_constants_zero
        scen_three_set.timestep_size scen_three_set.gridpoint_size dev_gap)
      ⟨env_unit.mem_indices, env_unit.mem_grid⟩ =
        .error (.undefined "exception leaves the omp for region") ∧
    (∀ what, setup_indices dev_gap scen_three_set
      (setup_sim_consts pc_unit cm_unit lib_unit sim_constants_zero
        scen_three_set.timestep_size scen_three_set.gridpoint_size dev_gap)
      ⟨env_unit.mem_indices, env_unit.mem_grid⟩ ≠ .error (.invalid_argument what)) ∧
    construct env_unit dev_gap scen_three =
      .error (.undefined "exception leaves the omp for region") := by
  have hidx : ∀ key, (setup_sim_consts pc_unit cm_unit lib_unit sim_constants_zero
      scen_three_set.timestep_size scen_three_set.gridpoint_size
      dev_gap).id_to_idx key < 2 ^ 31 := fun key =>
    Nat.lt_trans
      (id_to_idx_lt_used pc_unit cm_unit lib_unit sim_constants_zero _ _ dev_gap
        (by simp [dev_gap, dev_one]) key)
      (by simp [dev_gap, dev_one])
  have hex : ∃ i, i < scen_three_set.num_gridpoints ∧
      ∀ reg ∈ dev_gap.regions, ¬ (reg.start ≤ (i : ℚ) * scen_three_set.gridpoint_size ∧
        (i : ℚ) * scen_three_set.gridpoint_size ≤ reg.stop) := by
    refine ⟨2, by simp [scen_three_set, scen_three], ?_⟩
    intro reg hreg
    simp only [dev_gap, List.mem_cons, List.mem_singleton, List.not_mem_nil,
      or_false] at hreg
    rcases hreg with rfl | rfl | rfl <;> norm_num [scen_three_set]
  have hC := C7_region_not_found_ends_program dev_gap scen_three_set
    (setup_sim_consts pc_unit cm_unit lib_unit sim_constants_zero
      scen_three_set.timestep_size scen_three_set.gridpoint_size dev_gap)
    ⟨env_unit.mem_indices, env_unit.mem_grid⟩ hidx
  have hterm := hC.2.2.1.mpr hex
  refine ⟨hidx, hex, hterm, hC.1, ?_⟩
  have hlen : ¬ dev_gap.regions.length = 0 := by simp [dev_gap]
  have hreg : dev_gap.regions[2]? = some ⟨"r2", 1, 3 / 2, dielectric "A"⟩ := by
    simp [dev_gap]
  have hset : setup_settings env_unit.pc env_unit.cm dev_gap scen_three =
      .ok scen_three_set := setup_settings_gap
  unfold construct
  rw [if_neg hlen, hreg]
  simp only [hset, and_then_ok]
  rw [show env_unit.pc = pc_unit from rfl, show env_unit.cm = cm_unit from rfl,
    show env_unit.lib = lib_unit from rfl,
    show env_unit.sc0 = sim_constants_zero from rfl, hterm]
  rfl

end mbsolve
